import Mathlib

/-!
Verification of the thread/conversation aggregation engine of this repository
(`src/utils/thread_analytics.py`, class `ThreadAnalytics`), together with the
message-deduplication fragment of `src/streamlit_app.py`
(`display_conversations_browser`).

The Python code traverses loosely-typed JSON-like values.  We embed those
values as the inductive type `PyVal` and translate each method faithfully:

* attribute access `x.get(...)` on a value that is not a mapping raises
  `AttributeError` in Python; such steps are modelled in the `Except String`
  monad and return `.error "AttributeError"`;
* `dict.get(key, default)` on a genuine mapping is total and is modelled by
  `PyVal.dictGetD`;
* Python truthiness (`if not x`) is modelled by `PyVal.truthy`;
* `str(x)` is modelled by `PyVal.pyStr` (for strings it is the string itself;
  for containers it is the `repr`-based rendering; the model renders string
  quotes always with `'` and does not model escape sequences, which no claim
  depends on);
* `list.sort(key=...)` and `sorted(...)` (CPython's stable Timsort) are
  modelled by the stable `List.insertionSort`, which produces the same
  output as any stable sort on a totally preordered key column; CPython
  raises `TypeError` when the sort has to compare keys of unorderable or
  mixed types, which the model approximates by requiring a homogeneous
  orderable key column whenever the list has at least two elements.

Floating-point derived fields of the report (`avg_*` values, rounded with
`round(x, 2)`) are outside every claim considered here and are not part of
the embedded `Report` structure; the integer-valued fields are embedded
faithfully.
-/

deriving instance DecidableEq for Except

/-- A Python/JSON-like value as traversed by `thread_analytics.py`. -/
inductive PyVal where
  | none
  | str (s : String)
  | int (n : Int)
  | list (xs : List PyVal)
  | dict (kvs : List (String × PyVal))
deriving Repr

namespace PyVal

mutual

/-- Structural equality on `PyVal`, mirroring Python `==` on these shapes. -/
def beq : PyVal → PyVal → Bool
  | .none, .none => true
  | .str a, .str b => a == b
  | .int a, .int b => a == b
  | .list xs, .list ys => beqList xs ys
  | .dict xs, .dict ys => beqKV xs ys
  | _, _ => false

/-- Elementwise equality of `PyVal` lists. -/
def beqList : List PyVal → List PyVal → Bool
  | [], [] => true
  | x :: xs, y :: ys => beq x y && beqList xs ys
  | _, _ => false

/-- Elementwise equality of key/value lists. -/
def beqKV : List (String × PyVal) → List (String × PyVal) → Bool
  | [], [] => true
  | (k, v) :: xs, (k', v') :: ys => k == k' && beq v v' && beqKV xs ys
  | _, _ => false

end

end PyVal

mutual

theorem PyVal.beq_refl : ∀ v : PyVal, PyVal.beq v v = true
  | .none => rfl
  | .str s => by simp [PyVal.beq]
  | .int n => by simp [PyVal.beq]
  | .list xs => by simp [PyVal.beq, PyVal.beqList_refl xs]
  | .dict xs => by simp [PyVal.beq, PyVal.beqKV_refl xs]

theorem PyVal.beqList_refl : ∀ xs : List PyVal, PyVal.beqList xs xs = true
  | [] => rfl
  | x :: xs => by simp [PyVal.beqList, PyVal.beq_refl x, PyVal.beqList_refl xs]

theorem PyVal.beqKV_refl : ∀ xs : List (String × PyVal), PyVal.beqKV xs xs = true
  | [] => rfl
  | (k, v) :: xs => by simp [PyVal.beqKV, PyVal.beq_refl v, PyVal.beqKV_refl xs]

end

mutual

theorem PyVal.eq_of_beq : ∀ {a b : PyVal}, PyVal.beq a b = true → a = b
  | .none, .none, _ => rfl
  | .str _, .str _, h => by simpa [PyVal.beq] using congrArg PyVal.str (by simpa [PyVal.beq] using h)
  | .int _, .int _, h => by simpa [PyVal.beq] using congrArg PyVal.int (by simpa [PyVal.beq] using h)
  | .list xs, .list ys, h => by
      have := PyVal.eqList_of_beq (a := xs) (b := ys) (by simpa [PyVal.beq] using h)
      simp [this]
  | .dict xs, .dict ys, h => by
      have := PyVal.eqKV_of_beq (a := xs) (b := ys) (by simpa [PyVal.beq] using h)
      simp [this]
  | .none, .str _, h => by simp [PyVal.beq] at h
  | .none, .int _, h => by simp [PyVal.beq] at h
  | .none, .list _, h => by simp [PyVal.beq] at h
  | .none, .dict _, h => by simp [PyVal.beq] at h
  | .str _, .none, h => by simp [PyVal.beq] at h
  | .str _, .int _, h => by simp [PyVal.beq] at h
  | .str _, .list _, h => by simp [PyVal.beq] at h
  | .str _, .dict _, h => by simp [PyVal.beq] at h
  | .int _, .none, h => by simp [PyVal.beq] at h
  | .int _, .str _, h => by simp [PyVal.beq] at h
  | .int _, .list _, h => by simp [PyVal.beq] at h
  | .int _, .dict _, h => by simp [PyVal.beq] at h
  | .list _, .none, h => by simp [PyVal.beq] at h
  | .list _, .str _, h => by simp [PyVal.beq] at h
  | .list _, .int _, h => by simp [PyVal.beq] at h
  | .list _, .dict _, h => by simp [PyVal.beq] at h
  | .dict _, .none, h => by simp [PyVal.beq] at h
  | .dict _, .str _, h => by simp [PyVal.beq] at h
  | .dict _, .int _, h => by simp [PyVal.beq] at h
  | .dict _, .list _, h => by simp [PyVal.beq] at h

theorem PyVal.eqList_of_beq : ∀ {a b : List PyVal}, PyVal.beqList a b = true → a = b
  | [], [], _ => rfl
  | x :: xs, y :: ys, h => by
      have h' := h
      simp only [PyVal.beqList, Bool.and_eq_true] at h'
      have h1 := PyVal.eq_of_beq h'.1
      have h2 := PyVal.eqList_of_beq h'.2
      simp [h1, h2]
  | [], _ :: _, h => by simp [PyVal.beqList] at h
  | _ :: _, [], h => by simp [PyVal.beqList] at h

theorem PyVal.eqKV_of_beq : ∀ {a b : List (String × PyVal)}, PyVal.beqKV a b = true → a = b
  | [], [], _ => rfl
  | (k, v) :: xs, (k', v') :: ys, h => by
      have h' := h
      simp only [PyVal.beqKV, Bool.and_eq_true] at h'
      have h1 : k = k' := by simpa using h'.1.1
      have h2 := PyVal.eq_of_beq h'.1.2
      have h3 := PyVal.eqKV_of_beq h'.2
      simp [h1, h2, h3]
  | [], _ :: _, h => by simp [PyVal.beqKV] at h
  | _ :: _, [], h => by simp [PyVal.beqKV] at h

end

instance : BEq PyVal := ⟨PyVal.beq⟩

instance : LawfulBEq PyVal where
  eq_of_beq := PyVal.eq_of_beq
  rfl := by intro a; exact PyVal.beq_refl a

instance : DecidableEq PyVal := fun a b =>
  if h : PyVal.beq a b = true then
    .isTrue (PyVal.eq_of_beq h)
  else
    .isFalse (fun he => h (he ▸ PyVal.beq_refl a))

namespace PyVal

/-- Python truthiness (`bool(x)`) for the embedded value shapes. -/
def truthy : PyVal → Bool
  | .none => false
  | .str s => !(s = "")
  | .int n => !(n = 0)
  | .list xs => !xs.isEmpty
  | .dict kvs => !kvs.isEmpty

/-- Is the value a Python `dict` (`isinstance(x, dict)`)? -/
def isDict : PyVal → Bool
  | .dict _ => true
  | _ => false

/-- Is the value a Python `list` (`isinstance(x, list)`)? -/
def isList : PyVal → Bool
  | .list _ => true
  | _ => false

/-- `d.get(key, default)` on a mapping: first binding of `key`, else the
default.  Python dictionaries have unique keys, matched here by taking the
first binding. -/
def lookupD (kvs : List (String × PyVal)) (k : String) (d : PyVal) : PyVal :=
  match kvs.find? (fun p => p.1 == k) with
  | some p => p.2
  | Option.none => d

/-- `x.get(key, default)` on an arbitrary value: mappings answer, every
other shape raises `AttributeError` (it has no `get` method). -/
def getE (v : PyVal) (k : String) (d : PyVal) : Except String PyVal :=
  match v with
  | .dict kvs => .ok (lookupD kvs k d)
  | _ => .error "AttributeError"

mutual

/-- Python `repr(x)` for the embedded shapes.  String quotes are always
rendered with `'` and escape sequences are not modelled; no claim below
depends on the exact rendering of nested containers. -/
def pyRepr : PyVal → String
  | .none => "None"
  | .str s => "'" ++ s ++ "'"
  | .int n => toString n
  | .list xs => "[" ++ pyReprList xs ++ "]"
  | .dict kvs => "\x7b" ++ pyReprKV kvs ++ "\x7d"

/-- Comma-separated `repr`s of the elements of a list. -/
def pyReprList : List PyVal → String
  | [] => ""
  | [x] => pyRepr x
  | x :: xs => pyRepr x ++ ", " ++ pyReprList xs

/-- Comma-separated `'key': repr(value)` pairs of a mapping. -/
def pyReprKV : List (String × PyVal) → String
  | [] => ""
  | [(k, v)] => "'" ++ k ++ "': " ++ pyRepr v
  | (k, v) :: xs => "'" ++ k ++ "': " ++ pyRepr v ++ ", " ++ pyReprKV xs

end

/-- Python `str(x)`: the string itself for strings, `repr`-rendering
otherwise. -/
def pyStr : PyVal → String
  | .str s => s
  | v => pyRepr v

end PyVal

/-- Python's substring test `sub in s`. -/
def strContains (s sub : String) : Bool := decide (sub.toList <:+: s.toList)

/-- Python `s.lower()` (ASCII case folding suffices for the keys and roles
this code lowercases). -/
def pyLower (s : String) : String := ⟨s.data.map Char.toLower⟩

/-- The characters Python's `str.strip()` removes. -/
def pyIsSpace (c : Char) : Bool :=
  c = ' ' || c = '\t' || c = '\n' || c = '\r' || c = '\x0b' || c = '\x0c'

/-- Python `s.strip()`: drop leading and trailing whitespace. -/
def pyStrip (s : String) : String :=
  ⟨((s.data.dropWhile pyIsSpace).reverse.dropWhile pyIsSpace).reverse⟩

/-- Python slice `s[:n]` (by characters). -/
def pyTake (s : String) (n : Nat) : String := ⟨s.data.take n⟩

/-- Python slice `s[-n:]` (by characters): the last `n` characters. -/
def pyTakeRight (s : String) (n : Nat) : String := ⟨(s.data.reverse.take n).reverse⟩

/-- Lexicographic comparison of character lists by code point. -/
def lexLe : List Char → List Char → Bool
  | [], _ => true
  | _ :: _, [] => false
  | a :: as, b :: bs => if a = b then lexLe as bs else decide (a < b)

/-- Python `s <= t` on strings: lexicographic by code point. -/
def strLeB (s t : String) : Bool := lexLe s.data t.data

theorem lexLe_refl : ∀ l : List Char, lexLe l l = true
  | [] => rfl
  | a :: as => by simp [lexLe, lexLe_refl as]

theorem strLeB_refl (s : String) : strLeB s s = true := lexLe_refl s.data

/-- A normalized chat message as produced by
`ThreadAnalytics._process_message`: the Python dict
`\x7b'timestamp': ..., 'role': ..., 'content': ...\x7d`.  `role` is always
`"User"` or `"AI"`, `content` is the stripped stringified content; the
timestamp is the enclosing history item's `created_at` value, kept as a raw
`PyVal` exactly as the source does. -/
structure Msg where
  timestamp : PyVal
  role : String
  content : String
deriving Repr, DecidableEq

/-- `ThreadAnalytics._extract_messages_from_value`
(src/utils/thread_analytics.py lines 233-253): collect raw message
candidates from one `values` record.  A list under the literal `messages`
key is taken as is; a truthy non-list value under that key becomes a
single candidate; if that leaves no candidates, every key whose lowercased
name contains one of `message`, `chat`, `conversation`, `dialog`
contributes its list elements (or itself, when a mapping). -/
def _extract_messages_from_value (value : List (String × PyVal)) : List PyVal :=
  let direct := PyVal.lookupD value "messages" (.list [])
  let messages : List PyVal :=
    match direct with
    | .list xs => xs
    | v => if v.truthy then [v] else []
  if messages.isEmpty then
    value.foldl
      (fun acc kv =>
        if ["message", "chat", "conversation", "dialog"].any
            (fun kw => strContains (pyLower kv.1) kw) then
          match kv.2 with
          | .list xs => acc ++ xs
          | .dict kvs => acc ++ [.dict kvs]
          | _ => acc
        else acc)
      []
  else messages

/-- The recognized raw role strings (`['human', 'ai', 'user', 'assistant']`
in `_process_message`). -/
def validRoleVals : List PyVal := [.str "human", .str "ai", .str "user", .str "assistant"]

/-- `ThreadAnalytics._process_message`
(src/utils/thread_analytics.py lines 255-279): normalize one raw message
candidate.  Role comes from `type` falling back to `role` (key-presence
fallback, default `'unknown'`); content from `content` falling back to
`text` falling back to `message`; a list content is space-joined over its
truthy items, a mapping content is stringified.  The candidate is dropped
unless the content is truthy, its stripped string form is non-empty, and
the role value is exactly one of the recognized strings (no lowercasing in
the source). -/
def _process_message (msg : PyVal) (timestamp : PyVal) : Option Msg :=
  match msg with
  | .dict kvs =>
    let msg_type := PyVal.lookupD kvs "type" (PyVal.lookupD kvs "role" (.str "unknown"))
    let content0 := PyVal.lookupD kvs "content"
      (PyVal.lookupD kvs "text" (PyVal.lookupD kvs "message" (.str "")))
    let content : PyVal :=
      match content0 with
      | .list xs => .str (String.intercalate " " ((xs.filter PyVal.truthy).map PyVal.pyStr))
      | .dict kvs' => .str (PyVal.pyStr (.dict kvs'))
      | v => v
    if !content.truthy || pyStrip (PyVal.pyStr content) = "" || msg_type ∉ validRoleVals then
      Option.none
    else
      let role : String :=
        if msg_type ∈ ([PyVal.str "human", PyVal.str "user"] : List PyVal) then "User" else "AI"
      some ⟨timestamp, role, pyStrip (PyVal.pyStr content)⟩
  | _ => Option.none

/-- Python `<=` between two sort keys, as a Bool: defined for two strings
(lexicographic) and two ints; every other pair of shapes is unorderable
(comparing them raises `TypeError`). -/
def pyLeB (a b : PyVal) : Bool :=
  match a, b with
  | .str s, .str t => strLeB s t
  | .int m, .int n => m ≤ n
  | _, _ => false

/-- Does `list.sort` succeed on this key column?  CPython's Timsort
compares keys pairwise and raises `TypeError` on unorderable or mixed
types; a list of at most one element is never compared.  The model deems
the sort successful exactly when the column is trivial or homogeneous of
an orderable type. -/
def timestampsOrderable (conv : List Msg) : Bool :=
  conv.length ≤ 1
    || conv.all (fun m => match m.timestamp with | .str _ => true | _ => false)
    || conv.all (fun m => match m.timestamp with | .int _ => true | _ => false)

/-- The sort key relation `x.get('timestamp', '') <= y.get('timestamp', '')`
as a proposition. -/
def tsLe (a b : Msg) : Prop := pyLeB a.timestamp b.timestamp = true

instance : DecidableRel tsLe := fun a b => by unfold tsLe; infer_instance

/-- `conversation.sort(key=lambda x: x.get('timestamp', ''))`
(src/utils/thread_analytics.py line 230): CPython's stable Timsort,
modelled with the stable `List.insertionSort`; on an orderable key column
the two stable sorts produce identical output. -/
def pySortByTimestamp (conv : List Msg) : Except String (List Msg) :=
  if timestampsOrderable conv then
    .ok (conv.insertionSort tsLe)
  else
    .error "TypeError"

/-- The messages accumulated from one history item (the body of the
`for item in history_data` loop in `extract_conversation_from_history`,
src/utils/thread_analytics.py lines 208-225), in discovery order, before
the final sort. -/
def conversationOfItem (kvs : List (String × PyVal)) : List Msg :=
  let values := PyVal.lookupD kvs "values" (.dict [])
  let created_at := PyVal.lookupD kvs "created_at" (.str "")
  let values_list : List PyVal :=
    match values with
    | .dict _ => [values]
    | .list xs => xs
    | _ => []
  values_list.foldl
    (fun acc value =>
      match value with
      | .dict vkvs =>
          acc ++ ((_extract_messages_from_value vkvs).filterMap
            (fun m => _process_message m created_at))
      | _ => acc)
    []

/-- `ThreadAnalytics.extract_conversation_from_history`
(src/utils/thread_analytics.py lines 197-231).  An empty history yields
`[]`; otherwise the `for` loop over history items runs its body once and
then hits the unconditional `break` on line 227, so only the first item is
ever visited: a non-mapping first item makes the whole call `return []`
(line 206), a mapping first item contributes its messages, which are then
sorted by timestamp. -/
def extract_conversation_from_history (history_data : List PyVal) :
    Except String (List Msg) :=
  match history_data with
  | [] => .ok []
  | item :: _ =>
    match item with
    | .dict kvs => pySortByTimestamp (conversationOfItem kvs)
    | _ => .ok []

/-- If the accumulated conversation is already pairwise ordered and its key
column is orderable, the stable sort returns it unchanged. -/
theorem pySort_ok_of_sorted (conv : List Msg)
    (ho : timestampsOrderable conv = true)
    (h : List.Pairwise tsLe conv) :
    pySortByTimestamp conv = .ok conv := by
  simp [pySortByTimestamp, ho, List.Sorted.insertionSort_eq h]

example : extract_conversation_from_history
    [.dict [("values", .dict [("messages",
        .list [.dict [("type", .str "human"), ("content", .str " hi ")]])]),
      ("created_at", .str "2024-01-01T00:00:00")]]
    = .ok [⟨.str "2024-01-01T00:00:00", "User", "hi"⟩] := by decide

/-- The slice `timestamp[:19] if timestamp else ""` from
`display_conversations_browser` (src/streamlit_app.py line 731).  A falsy
timestamp gives the empty key fragment; strings and lists support slicing;
slicing any other truthy value raises `TypeError`. -/
def timestampKeySlice (t : PyVal) : Except String PyVal :=
  if t.truthy then
    match t with
    | .str s => .ok (.str (pyTake s 19))
    | .list xs => .ok (.list (xs.take 19))
    | _ => .error "TypeError"
  else .ok (.str "")

/-- The deduplication key built in `display_conversations_browser`
(src/streamlit_app.py lines 721-733):
`f"\x7brole\x7d|\x7bcontent_start\x7d|\x7bcontent_end\x7d|\x7btimestamp_key\x7d"`
with `role` lowercased, `content` stripped, `content_start` the first 50
characters (when longer than 50), `content_end` the last 50 characters
(only when the content is longer than 100), and the timestamp truncated
to 19 characters (whole seconds for ISO strings). -/
def msg_key (m : Msg) : Except String String := do
  let role := pyLower m.role
  let content := pyStrip m.content
  let content_start := if content.length > 50 then pyTake content 50 else content
  let content_end := if content.length > 100 then pyTakeRight content 50 else ""
  let tkey ← timestampKeySlice m.timestamp
  .ok (role ++ "|" ++ content_start ++ "|" ++ content_end ++ "|" ++ PyVal.pyStr tkey)

/-- One step of the deduplication loop of `display_conversations_browser`
(src/streamlit_app.py lines 719-737): state is `(seen_messages,
unique_messages)`; a message with empty stripped content is skipped; a
message whose key was already seen is skipped; otherwise its key is added
and the message appended. -/
def dedupStep (st : List String × List Msg) (m : Msg) :
    Except String (List String × List Msg) :=
  if pyStrip m.content = "" then .ok st
  else do
    let k ← msg_key m
    if k ∈ st.1 then .ok st
    else .ok (k :: st.1, st.2 ++ [m])

/-- The `unique_messages` list computed by `display_conversations_browser`
(src/streamlit_app.py lines 716-737) from a conversation. -/
def display_dedup_messages (conversation : List Msg) : Except String (List Msg) :=
  (conversation.foldlM dedupStep ([], [])).map (·.2)

/-- Where `st.secrets` lookups can end up for `ThreadAnalytics.__init__`:
either accessing the secret store itself raises (no secrets configured at
all), or the store is available and the `THREAD_API_URL` attribute is
either present or absent (in which case `getattr(..., None)` returns
`None` without raising). -/
inductive SecretsSource where
  | raising
  | store (url : Option String)

/-- `ThreadAnalytics.__init__` (src/utils/thread_analytics.py lines
26-37), restricted to the `base_url` computation: the `try` block reads
`getattr(st.secrets, "THREAD_API_URL", None)`; only when that access
itself raises does the `except` branch re-raise; a store without the
attribute yields `secrets_url = None` and construction succeeds with
`self.base_url = None`.  The result is the constructed `base_url`. -/
def ThreadAnalytics_init : SecretsSource → Except String (Option String)
  | .raising => .error "Exception"
  | .store url => .ok url

/-- One deduplicated tool call entry appended to `tool_calls_detail` by
`analyze_tool_calling_stats` (src/utils/thread_analytics.py lines 907-915
and 939-947). -/
structure ToolCallDetail where
  function_name : PyVal
  call_id : PyVal
  arguments : PyVal
  timestamp : PyVal
  message_type : PyVal
  message_id : PyVal
deriving Repr, DecidableEq

/-- The `tool_stats` accumulator of `analyze_tool_calling_stats`
(src/utils/thread_analytics.py lines 857-862). -/
structure ToolStats where
  create_lead : Nat
  send_html_email : Nat
  total_tool_calls : Nat
  tool_calls_detail : List ToolCallDetail
deriving Repr, DecidableEq

/-- The bookkeeping shared by both tool-call branches: mark the call id as
processed, bump the total, bump the matching named counter (`if/elif` on
the function name), and append the detail entry
(src/utils/thread_analytics.py lines 896-915 and 928-947). -/
def countCall (st : ToolStats × List PyVal)
    (fname cid args ts mtype mid : PyVal) : ToolStats × List PyVal :=
  let s := st.1
  let s := { s with total_tool_calls := s.total_tool_calls + 1 }
  let s :=
    if fname = .str "create_lead" then { s with create_lead := s.create_lead + 1 }
    else if fname = .str "send_html_email" then
      { s with send_html_email := s.send_html_email + 1 }
    else s
  ({ s with tool_calls_detail := s.tool_calls_detail ++ [⟨fname, cid, args, ts, mtype, mid⟩] },
    cid :: st.2)

/-- Processing of one entry of `additional_kwargs.tool_calls`
(src/utils/thread_analytics.py lines 887-915): non-mappings are skipped;
`function` defaults to `\x7b\x7d` and must be a mapping (reading `name`
from a non-mapping raises `AttributeError`); the call is counted when the
name and id are truthy and the id is unseen. -/
def procToolCallPrimary (created_at msg_type msg_id : PyVal)
    (st : ToolStats × List PyVal) (tc : PyVal) :
    Except String (ToolStats × List PyVal) :=
  match tc with
  | .dict tckvs =>
    match PyVal.lookupD tckvs "function" (.dict []) with
    | .dict fkvs =>
      let function_name := PyVal.lookupD fkvs "name" (.str "")
      let call_id := PyVal.lookupD tckvs "id" (.str "")
      if function_name.truthy && call_id.truthy && call_id ∉ st.2 then
        .ok (countCall st function_name call_id
          (PyVal.lookupD fkvs "arguments" (.str "")) created_at msg_type msg_id)
      else .ok st
    | _ => .error "AttributeError"
  | _ => .ok st

/-- Processing of one entry of the fallback `message.tool_calls` list
(src/utils/thread_analytics.py lines 920-947): entries carry `name`,
`id`, `args` at the top level and `args` is stringified; non-mappings are
skipped; no step here can raise. -/
def procToolCallFallback (created_at msg_type msg_id : PyVal)
    (st : ToolStats × List PyVal) (tc : PyVal) : ToolStats × List PyVal :=
  match tc with
  | .dict tckvs =>
    let function_name := PyVal.lookupD tckvs "name" (.str "")
    let call_id := PyVal.lookupD tckvs "id" (.str "")
    if function_name.truthy && call_id.truthy && call_id ∉ st.2 then
      countCall st function_name call_id
        (.str (PyVal.pyStr (PyVal.lookupD tckvs "args" (.dict [])))) created_at msg_type msg_id
    else st
  | _ => st

/-- Processing of one message of a history item's `values['messages']`
(src/utils/thread_analytics.py lines 877-947): non-mapping messages are
skipped; `additional_kwargs` defaults to `\x7b\x7d` and reading
`tool_calls` from a non-mapping raises; a truthy list there is processed
by the primary branch, otherwise the structurally different direct
`tool_calls` list is tried — the two branches are mutually exclusive. -/
def procMessageTools (created_at : PyVal) (st : ToolStats × List PyVal)
    (message : PyVal) : Except String (ToolStats × List PyVal) :=
  match message with
  | .dict mkvs =>
    let msg_type := PyVal.lookupD mkvs "type" (.str "")
    let msg_id := PyVal.lookupD mkvs "id" (.str "")
    match PyVal.lookupD mkvs "additional_kwargs" (.dict []) with
    | .dict akkvs =>
      let tool_calls := PyVal.lookupD akkvs "tool_calls" (.list [])
      if tool_calls.truthy && tool_calls.isList then
        match tool_calls with
        | .list tcs => tcs.foldlM (procToolCallPrimary created_at msg_type msg_id) st
        | _ => .ok st
      else
        match PyVal.lookupD mkvs "tool_calls" (.list []) with
        | .list tcs => .ok (tcs.foldl (procToolCallFallback created_at msg_type msg_id) st)
        | _ => .ok st
    | _ => .error "AttributeError"
  | _ => .ok st

/-- Processing of one history item by `analyze_tool_calling_stats`
(src/utils/thread_analytics.py lines 869-876): `item.get('values', \x7b\x7d)`
and `values.get('messages', [])` raise `AttributeError` on non-mappings
(there is no isinstance guard on either); a non-list `messages` is
skipped. -/
def procItemTools (st : ToolStats × List PyVal) (item : PyVal) :
    Except String (ToolStats × List PyVal) :=
  match item with
  | .dict ikvs =>
    match PyVal.lookupD ikvs "values" (.dict []) with
    | .dict vkvs =>
      match PyVal.lookupD vkvs "messages" (.list []) with
      | .list msgs =>
          msgs.foldlM (procMessageTools (PyVal.lookupD ikvs "created_at" (.str ""))) st
      | _ => .ok st
    | _ => .error "AttributeError"
  | _ => .error "AttributeError"

/-- `ThreadAnalytics.analyze_tool_calling_stats`
(src/utils/thread_analytics.py lines 847-949): fold over the history
items with the fresh per-call `processed_call_ids` set; an empty history
returns the zeroed stats immediately. -/
def analyze_tool_calling_stats (history_data : List PyVal) : Except String ToolStats :=
  if history_data.isEmpty then .ok ⟨0, 0, 0, []⟩
  else (history_data.foldlM procItemTools (⟨0, 0, 0, []⟩, [])).map (·.1)

example :
    analyze_tool_calling_stats
      [.dict [("values", .dict [("messages", .list [.dict [("additional_kwargs",
        .dict [("tool_calls", .list [.dict [("id", .str "c1"),
          ("function", .dict [("name", .str "create_lead"), ("arguments", .str "\x7b\x7d")])]])])]])])]]
    = .ok ⟨1, 0, 1, [⟨.str "create_lead", .str "c1", .str "\x7b\x7d", .str "", .str "", .str ""⟩]⟩ := by
  decide

/-- Replace the binding of `k` in an association list, or append it —
Python `d[k] = v`. -/
def setKV {β : Type} [DecidableEq PyVal] (l : List (PyVal × β)) (k : PyVal) (v : β) :
    List (PyVal × β) :=
  if l.any (fun p => p.1 = k) then
    l.map (fun p => if p.1 = k then (k, v) else p)
  else l ++ [(k, v)]

/-- `defaultdict(list)` append: `d[k].append(v)` — grow the existing
group, or start a new one at the end (Python dicts preserve insertion
order). -/
def appendGroup (l : List (PyVal × List PyVal)) (k v : PyVal) : List (PyVal × List PyVal) :=
  if l.any (fun p => p.1 = k) then
    l.map (fun p => if p.1 = k then (p.1, p.2 ++ [v]) else p)
  else l ++ [(k, [v])]

/-- `defaultdict(int)` increment keyed by a string: `d[k] += 1`. -/
def incCounterStr (l : List (String × Nat)) (k : String) : List (String × Nat) :=
  if l.any (fun p => p.1 = k) then
    l.map (fun p => if p.1 = k then (p.1, p.2 + 1) else p)
  else l ++ [(k, 1)]

/-- `ThreadAnalytics.get_user_metadata` (src/utils/thread_analytics.py
lines 177-195): scan the fetched history for the first item whose
metadata has a truthy `username` or `email` and return the five-field
profile; an empty history or no match yields `\x7b\x7d`.  Reading
`metadata` from a non-mapping item, or a field from a non-mapping
metadata, raises. -/
def userMetaLoop : List PyVal → Except String PyVal
  | [] => .ok (.dict [])
  | item :: rest => do
    let metadata ← PyVal.getE item "metadata" (.dict [])
    match metadata with
    | .dict mkvs =>
      if (PyVal.lookupD mkvs "username" .none).truthy
          || (PyVal.lookupD mkvs "email" .none).truthy then
        .ok (.dict [("username", PyVal.lookupD mkvs "username" (.str "")),
          ("email", PyVal.lookupD mkvs "email" (.str "")),
          ("name", PyVal.lookupD mkvs "name" (.str "")),
          ("phoneNumber", PyVal.lookupD mkvs "phoneNumber" (.str "")),
          ("user_id", PyVal.lookupD mkvs "user_id" (.str ""))])
      else userMetaLoop rest
    | _ => .error "AttributeError"

/-- `get_user_metadata` given the history-fetch collaborator
(`get_thread_history` always returns a JSON list, `[]` on any transport
error). -/
def get_user_metadata (fetchHistory : PyVal → List PyVal) (thread_id : PyVal) :
    Except String PyVal :=
  userMetaLoop (fetchHistory thread_id)

/-- The per-thread conversation record built by
`ThreadAnalytics._get_thread_conversation_data`
(src/utils/thread_analytics.py lines 321-347).  The float-free fields are
embedded as written. -/
structure ConvData where
  total_messages : Nat
  user_messages : Nat
  ai_messages : Nat
  first_message : String
  last_message : String
  created_at : PyVal
  updated_at : PyVal
  user_id : PyVal
  conversation : List Msg
deriving Repr, DecidableEq

/-- `ThreadAnalytics._get_thread_conversation_data`
(src/utils/thread_analytics.py lines 321-347): extract the conversation
for one thread; a non-empty conversation yields counts and truncated
first/last previews, an empty one yields the all-zero record. -/
def _get_thread_conversation_data (fetchHistory : PyVal → List PyVal)
    (thread : PyVal) (thread_id : PyVal) : Except String ConvData := do
  let conversation ← extract_conversation_from_history (fetchHistory thread_id)
  let created_at ← PyVal.getE thread "created_at" (.str "")
  let updated_at ← PyVal.getE thread "updated_at" (.str "")
  let metadata ← PyVal.getE thread "metadata" (.dict [])
  let user_id ← PyVal.getE metadata "user_id" (.str "")
  if !conversation.isEmpty then
    .ok { total_messages := conversation.length
          user_messages := (conversation.filter (fun m => m.role = "User")).length
          ai_messages := (conversation.filter (fun m => m.role = "AI")).length
          first_message := pyTake (conversation.headD ⟨.str "", "", ""⟩).content 100 ++ "..."
          last_message := pyTake (conversation.getLastD ⟨.str "", "", ""⟩).content 100 ++ "..."
          created_at := created_at
          updated_at := updated_at
          user_id := user_id
          conversation := conversation }
  else
    .ok { total_messages := 0
          user_messages := 0
          ai_messages := 0
          first_message := "No conversation found"
          last_message := "No conversation found"
          created_at := created_at
          updated_at := updated_at
          user_id := user_id
          conversation := [] }

/-- The mutable state of the main loop of
`ThreadAnalytics.analyze_users_comprehensive`
(src/utils/thread_analytics.py lines 283-313). -/
structure UsersState where
  user_threads : List (PyVal × List PyVal)
  user_details : List (PyVal × PyVal)
  thread_conversations : List (PyVal × ConvData)
  total_users : List PyVal
deriving Repr, DecidableEq

/-- One iteration of the loop of `analyze_users_comprehensive`
(src/utils/thread_analytics.py lines 290-313): a record missing a truthy
`user_id` or a truthy `thread_id` is skipped entirely; otherwise the
thread id joins the user's group, the profile is fetched once per user
(first thread wins), and the conversation record is stored. -/
def usersStep (fetchHistory : PyVal → List PyVal) (st : UsersState) (thread : PyVal) :
    Except String UsersState := do
  let metadata ← PyVal.getE thread "metadata" (.dict [])
  let user_id ← PyVal.getE metadata "user_id" .none
  let thread_id ← PyVal.getE thread "thread_id" .none
  if !user_id.truthy || !thread_id.truthy then .ok st
  else do
    let st := { st with
      user_threads := appendGroup st.user_threads user_id thread_id
      total_users := if user_id ∈ st.total_users then st.total_users
        else st.total_users ++ [user_id] }
    let st ←
      if st.user_details.any (fun p => p.1 = user_id) then .ok st
      else do
        let um ← get_user_metadata fetchHistory thread_id
        let details := if um.truthy then um else
          .dict [("username", .str ""), ("email", .str ""), ("name", .str ""),
            ("phoneNumber", .str ""), ("userId", user_id)]
        .ok { st with user_details := st.user_details ++ [(user_id, details)] }
    let cd ← _get_thread_conversation_data fetchHistory thread thread_id
    .ok { st with thread_conversations := setKV st.thread_conversations thread_id cd }

/-- One user's entry of `threads_per_user`, as built by
`ThreadAnalytics._build_user_statistics`
(src/utils/thread_analytics.py lines 359-372); the float-valued
`avg_messages_per_thread` is omitted (no claim involves it). -/
structure UserPerStats where
  thread_count : Nat
  thread_ids : List PyVal
  user_info : PyVal
  total_messages : Nat
  total_user_messages : Nat
deriving Repr, DecidableEq

/-- The `user_stats` mapping returned by `analyze_users_comprehensive`
(src/utils/thread_analytics.py lines 349-375). -/
structure UserStats where
  total_users : Nat
  threads_per_user : List (PyVal × UserPerStats)
  user_thread_count : List (Nat × Nat)
  user_details : List (PyVal × PyVal)
  thread_conversations : List (PyVal × ConvData)
deriving Repr, DecidableEq

/-- `thread_conversations.get(tid, \x7b\x7d).get(field, 0)` summation
helper: the named count of a stored conversation record, `0` when the
thread id is unknown. -/
def convCount (tc : List (PyVal × ConvData)) (f : ConvData → Nat) (tid : PyVal) : Nat :=
  match tc.find? (fun p => p.1 = tid) with
  | some p => f p.2
  | Option.none => 0

/-- The body of the per-user loop of
`ThreadAnalytics._build_user_statistics`
(src/utils/thread_analytics.py lines 359-373): append the user's
`threads_per_user` entry and bump the thread-count histogram. -/
def _build_user_step (user_details : List (PyVal × PyVal))
    (thread_conversations : List (PyVal × ConvData))
    (us : UserStats) (p : PyVal × List PyVal) : UserStats :=
  let thread_count := p.2.length
  let total_messages := (p.2.map (convCount thread_conversations (·.total_messages))).sum
  let total_user_messages := (p.2.map (convCount thread_conversations (·.user_messages))).sum
  { us with
    threads_per_user := us.threads_per_user ++
      [(p.1, { thread_count := thread_count
               thread_ids := p.2
               user_info := (match user_details.find? (fun q => q.1 = p.1) with
                 | some q => q.2 | Option.none => .dict [])
               total_messages := total_messages
               total_user_messages := total_user_messages })]
    user_thread_count :=
      if us.user_thread_count.any (fun q => q.1 = thread_count) then
        us.user_thread_count.map
          (fun q => if q.1 = thread_count then (q.1, q.2 + 1) else q)
      else us.user_thread_count ++ [(thread_count, 1)] }

/-- `ThreadAnalytics._build_user_statistics`
(src/utils/thread_analytics.py lines 349-375): fold each user's thread
group into its `threads_per_user` entry and the thread-count histogram. -/
def _build_user_statistics (user_threads : List (PyVal × List PyVal))
    (user_details : List (PyVal × PyVal)) (thread_conversations : List (PyVal × ConvData))
    (total_users : List PyVal) : UserStats :=
  user_threads.foldl (_build_user_step user_details thread_conversations)
    { total_users := total_users.length
      threads_per_user := []
      user_thread_count := []
      user_details := user_details
      thread_conversations := thread_conversations }

/-- `ThreadAnalytics.analyze_users_comprehensive`
(src/utils/thread_analytics.py lines 281-319). -/
def analyze_users_comprehensive (fetchHistory : PyVal → List PyVal)
    (threads : List PyVal) : Except String UserStats := do
  let st ← threads.foldlM (usersStep fetchHistory) ⟨[], [], [], []⟩
  .ok (_build_user_statistics st.user_threads st.user_details
    st.thread_conversations st.total_users)

/-- `ThreadAnalytics.analyze_threads_by_date`
(src/utils/thread_analytics.py lines 161-175): count threads by the date
portion of `updated_at` and return the counts sorted ascending by date
key.  Date parsing (`datetime.fromisoformat` after the `Z` fixup,
rendered with `strftime('%Y-%m-%d')`) is stdlib behaviour, supplied as
the parameter `parseDateStr` returning `none` exactly when parsing
raises `ValueError`; a truthy non-string `updated_at` raises
`AttributeError` inside the same caught `try`, hence is also skipped. -/
def analyze_threads_by_date (parseDateStr : String → Option String)
    (threads : List PyVal) : Except String (List (String × Nat)) := do
  let counts ← threads.foldlM
    (fun acc thread => do
      let updated_at ← PyVal.getE thread "updated_at" .none
      if updated_at.truthy then
        match updated_at with
        | .str s =>
          match parseDateStr s with
          | some d => .ok (incCounterStr acc d)
          | Option.none => .ok acc
        | _ => .ok acc
      else .ok acc)
    []
  .ok (counts.insertionSort (fun a b => strLeB a.1 b.1 = true))

instance : DecidableRel (fun (a b : String × Nat) => strLeB a.1 b.1 = true) :=
  fun _ _ => by infer_instance

/-- `max(threads_by_date.items(), key=lambda x: x[1])` (src/utils/
thread_analytics.py lines 404-407): Python's `max` keeps the first
maximum in iteration order.  `none` on an empty mapping (the source
guards with `if threads_by_date:`). -/
def maxByCount : List (String × Nat) → Option (String × Nat)
  | [] => Option.none
  | p :: rest =>
    some (rest.foldl (fun cur q => if q.2 > cur.2 then q else cur) p)

/-- One entry of `top_users` (src/utils/thread_analytics.py lines
453-461). -/
structure TopUser where
  user_id : PyVal
  thread_count : Nat
  thread_ids : List PyVal
  user_info : PyVal
deriving Repr, DecidableEq

/-- The descending-by-`thread_count` order used by `get_top_users`
(`sorted(..., reverse=True)`, stable). -/
def topUserRel (a b : PyVal × UserPerStats) : Prop :=
  b.2.thread_count ≤ a.2.thread_count

instance : DecidableRel topUserRel := fun _ _ => by unfold topUserRel; infer_instance

/-- `ThreadAnalytics.get_top_users` (src/utils/thread_analytics.py lines
445-461): stable sort descending by `thread_count`, first `top_n`
(default 10). -/
def get_top_users (threads_per_user : List (PyVal × UserPerStats))
    (top_n : Nat := 10) : List TopUser :=
  ((threads_per_user.insertionSort topUserRel).take top_n).map
    (fun p => { user_id := p.1
                thread_count := p.2.thread_count
                thread_ids := p.2.thread_ids
                user_info := p.2.user_info })

/-- One bucket of `tool_calls_by_date`
(src/utils/thread_analytics.py lines 972-974). -/
structure DateToolCounts where
  create_lead : Nat
  send_html_email : Nat
  total : Nat
deriving Repr, DecidableEq

/-- One entry of `tool_calls_by_thread`
(src/utils/thread_analytics.py lines 1016-1021). -/
structure ThreadToolInfo where
  thread_metadata : PyVal
  created_at : PyVal
  updated_at : PyVal
  tool_stats : ToolStats
deriving Repr, DecidableEq

/-- The `total_stats` accumulator of
`ThreadAnalytics.analyze_tool_calling_for_all_threads`
(src/utils/thread_analytics.py lines 964-976). -/
structure AllToolStats where
  create_lead : Nat
  send_html_email : Nat
  total_tool_calls : Nat
  threads_with_create_lead : Nat
  threads_with_send_html_email : Nat
  threads_with_any_tool : Nat
  tool_calls_by_thread : List (PyVal × ThreadToolInfo)
  tool_calls_by_date : List (String × DateToolCounts)
  detailed_calls : List (PyVal × ToolCallDetail)
deriving Repr, DecidableEq

/-- One iteration of `analyze_tool_calling_for_all_threads`
(src/utils/thread_analytics.py lines 982-1039): fetch the thread's
history, run `analyze_tool_calling_stats` on it, fold the per-thread
stats into the global totals, the per-thread map, the per-date buckets
(keyed by the date of the thread's `created_at`), and the flat detail
list tagged with the thread id. -/
def allToolsStep (fetchHistory : PyVal → List PyVal)
    (parseDateStr : String → Option String) (ts : AllToolStats) (thread : PyVal) :
    Except String AllToolStats := do
  let thread_id ← PyVal.getE thread "thread_id" (.str "")
  if !thread_id.truthy then .ok ts
  else do
    let tstats ← analyze_tool_calling_stats (fetchHistory thread_id)
    let metadata ← PyVal.getE thread "metadata" (.dict [])
    let created_at ← PyVal.getE thread "created_at" (.str "")
    let updated_at ← PyVal.getE thread "updated_at" (.str "")
    let ts := { ts with
      create_lead := ts.create_lead + tstats.create_lead
      send_html_email := ts.send_html_email + tstats.send_html_email
      total_tool_calls := ts.total_tool_calls + tstats.total_tool_calls
      threads_with_create_lead :=
        ts.threads_with_create_lead + (if tstats.create_lead > 0 then 1 else 0)
      threads_with_send_html_email :=
        ts.threads_with_send_html_email + (if tstats.send_html_email > 0 then 1 else 0)
      threads_with_any_tool :=
        ts.threads_with_any_tool + (if tstats.total_tool_calls > 0 then 1 else 0)
      tool_calls_by_thread := setKV ts.tool_calls_by_thread thread_id
        { thread_metadata := metadata
          created_at := created_at
          updated_at := updated_at
          tool_stats := tstats } }
    let ts :=
      if created_at.truthy then
        match created_at with
        | .str s =>
          match parseDateStr s with
          | some d =>
            { ts with tool_calls_by_date :=
                if ts.tool_calls_by_date.any (fun p => p.1 = d) then
                  ts.tool_calls_by_date.map (fun p =>
                    if p.1 = d then
                      (p.1, { create_lead := p.2.create_lead + tstats.create_lead
                              send_html_email := p.2.send_html_email + tstats.send_html_email
                              total := p.2.total + tstats.total_tool_calls })
                    else p)
                else ts.tool_calls_by_date ++
                  [(d, { create_lead := tstats.create_lead
                         send_html_email := tstats.send_html_email
                         total := tstats.total_tool_calls })] }
          | Option.none => ts
        | _ => ts
      else ts
    .ok { ts with detailed_calls :=
      ts.detailed_calls ++ tstats.tool_calls_detail.map (fun d => (thread_id, d)) }

/-- `ThreadAnalytics.analyze_tool_calling_for_all_threads`
(src/utils/thread_analytics.py lines 951-1055). -/
def analyze_tool_calling_for_all_threads (fetchHistory : PyVal → List PyVal)
    (parseDateStr : String → Option String) (threads : List PyVal) :
    Except String AllToolStats :=
  threads.foldlM (allToolsStep fetchHistory parseDateStr)
    ⟨0, 0, 0, 0, 0, 0, [], [], []⟩

/-- The report of `ThreadAnalytics.generate_report`
(src/utils/thread_analytics.py lines 378-443).  Summary fields are
embedded flat; the float-valued averages and the wall-clock
`analysis_date` are omitted (no claim involves them);
`tool_calling_stats` is present exactly when `include_tool_analysis`. -/
structure Report where
  summary_total_threads : Nat
  summary_total_users : Nat
  summary_total_messages : Nat
  summary_user_messages : Nat
  summary_ai_messages : Nat
  summary_peak_day : String
  summary_peak_threads : Nat
  threads_by_date : List (String × Nat)
  user_stats : UserStats
  top_users : List TopUser
  tool_calling_stats : Option AllToolStats
deriving Repr, DecidableEq

/-- `ThreadAnalytics.generate_report`
(src/utils/thread_analytics.py lines 378-443), with the two remote
collaborators (per-thread history fetch and stdlib date parsing) passed
as parameters. -/
def generate_report (fetchHistory : PyVal → List PyVal)
    (parseDateStr : String → Option String) (threads : List PyVal)
    (include_tool_analysis : Bool := true) : Except String Report := do
  let total_threads := threads.length
  let threads_by_date ← analyze_threads_by_date parseDateStr threads
  let user_stats ← analyze_users_comprehensive fetchHistory threads
  let totals := user_stats.threads_per_user.foldl
    (fun acc p => (acc.1 + p.2.total_messages, acc.2 + p.2.total_user_messages)) (0, 0)
  let total_messages := totals.1
  let total_user_messages := totals.2
  let total_ai_messages := total_messages - total_user_messages
  let peak := maxByCount threads_by_date
  let tool_stats ←
    if include_tool_analysis then
      (analyze_tool_calling_for_all_threads fetchHistory parseDateStr threads).map some
    else .ok Option.none
  .ok { summary_total_threads := total_threads
        summary_total_users := user_stats.total_users
        summary_total_messages := total_messages
        summary_user_messages := total_user_messages
        summary_ai_messages := total_ai_messages
        summary_peak_day := (peak.map (·.1)).getD ""
        summary_peak_threads := (peak.map (·.2)).getD 0
        threads_by_date := threads_by_date
        user_stats := user_stats
        top_users := get_top_users user_stats.threads_per_user
        tool_calling_stats := tool_stats }

/-- Python truthiness of an optional string parameter (`None` and `""`
are falsy). -/
def optStrTruthy : Option String → Bool
  | Option.none => false
  | some s => !(s = "")

/-- The `date_to` half of the filter body of `_filter_threads_by_date`
(src/utils/thread_analytics.py lines 136-141): parse failure of the
bound is caught and skips the thread; a thread past the bound is
skipped; otherwise it is kept. -/
def filterCheckTo (parseYmd : String → Option Nat) (date_to : Option String)
    (d : Nat) (acc : List PyVal) (thread : PyVal) : List PyVal :=
  if optStrTruthy date_to then
    match parseYmd (date_to.getD "") with
    | Option.none => acc
    | some td => if d > td then acc else acc ++ [thread]
  else acc ++ [thread]

/-- `ThreadAnalytics._filter_threads_by_date`
(src/utils/thread_analytics.py lines 117-145).  Stdlib date parsing is
supplied as parameters mapping a string to a comparable date ordinal:
`parseIsoDate` models `datetime.fromisoformat(s.replace('Z',
'+00:00')).date()` and `parseYmd` models `datetime.strptime(s,
'%Y-%m-%d').date()`, `none` meaning `ValueError`.  `thread.get` runs
outside the `try`, so a non-mapping thread raises; a truthy non-string
`updated_at` raises `AttributeError` inside the `try` and is skipped. -/
def _filter_threads_by_date (parseIsoDate parseYmd : String → Option Nat)
    (threads : List PyVal) (date_from date_to : Option String) :
    Except String (List PyVal) :=
  if !optStrTruthy date_from && !optStrTruthy date_to then .ok threads
  else
    threads.foldlM
      (fun acc thread => do
        let updated_at ← PyVal.getE thread "updated_at" (.str "")
        if !updated_at.truthy then .ok acc
        else
          match updated_at with
          | .str s =>
            match parseIsoDate s with
            | Option.none => .ok acc
            | some d =>
              if optStrTruthy date_from then
                match parseYmd (date_from.getD "") with
                | Option.none => .ok acc
                | some fd =>
                  if d < fd then .ok acc
                  else .ok (filterCheckTo parseYmd date_to d acc thread)
              else .ok (filterCheckTo parseYmd date_to d acc thread)
          | _ => .ok acc)
      []

/-- The per-page filter application of `fetch_all_threads`
(src/utils/thread_analytics.py lines 106-107): the date filter runs only
when a date bound is truthy. -/
def appliedPageFilter (parseIsoDate parseYmd : String → Option Nat)
    (date_from date_to : Option String) (page : List PyVal) :
    Except String (List PyVal) :=
  if optStrTruthy date_from || optStrTruthy date_to then
    _filter_threads_by_date parseIsoDate parseYmd page date_from date_to
  else .ok page

/-- The `while True` pagination loop of `fetch_all_threads`
(src/utils/thread_analytics.py lines 98-112): fetch a page at the
current offset, stop as soon as the raw page is empty (tested before any
filtering), otherwise filter, extend the accumulator and advance the
offset by the fixed `limit = 1000`.  `fetchPage` stands for
`fetch_threads(limit=1000, offset)`, which always returns a JSON list
(`[]` on any transport error).  The loop has no bound in the source;
`fuel` caps the recursion and is irrelevant whenever an empty page is
reached first. -/
def fetchAllLoop (fetchPage : Nat → List PyVal)
    (parseIsoDate parseYmd : String → Option Nat)
    (date_from date_to : Option String) :
    Nat → Nat → List PyVal → Except String (List PyVal)
  | 0, _, acc => .ok acc
  | fuel + 1, offset, acc => do
    let threads := fetchPage offset
    if threads.isEmpty then .ok acc
    else do
      let threads ← appliedPageFilter parseIsoDate parseYmd date_from date_to threads
      fetchAllLoop fetchPage parseIsoDate parseYmd date_from date_to
        fuel (offset + 1000) (acc ++ threads)

/-- `ThreadAnalytics.fetch_all_threads`
(src/utils/thread_analytics.py lines 90-115). -/
def fetch_all_threads (fetchPage : Nat → List PyVal)
    (parseIsoDate parseYmd : String → Option Nat)
    (date_from date_to : Option String) (fuel : Nat) :
    Except String (List PyVal) :=
  fetchAllLoop fetchPage parseIsoDate parseYmd date_from date_to fuel 0 []

/-- The pre-sort conversation accumulated by
`extract_conversation_from_history`: the messages of the first history
item in discovery order (the unconditional `break` on line 227 of
src/utils/thread_analytics.py stops the loop after that item). -/
def extractUnsorted (history_data : List PyVal) : List Msg :=
  match history_data with
  | [] => []
  | item :: _ =>
    match item with
    | .dict kvs => conversationOfItem kvs
    | _ => []

/-- `msg_key` as a partial pure function (`none` when building the key
would raise). -/
def msgKeyT (m : Msg) : Option String := (msg_key m).toOption

/-- Reference recursion for the deduplication loop of
`display_conversations_browser`: keep a message iff its stripped content
is non-empty and its key was not seen before; earlier kept keys shadow
later occurrences. -/
def firstOccur (seen : List String) : List Msg → List Msg
  | [] => []
  | m :: rest =>
    if pyStrip m.content = "" then firstOccur seen rest
    else
      match msgKeyT m with
      | some k => if k ∈ seen then firstOccur seen rest
          else m :: firstOccur (k :: seen) rest
      | Option.none => []

/-- Shape condition under which one `additional_kwargs.tool_calls` entry
is processed without raising: reading `function.name` needs `function`
to be a mapping (or absent). -/
def tcWF (tc : PyVal) : Bool :=
  match tc with
  | .dict tckvs => (PyVal.lookupD tckvs "function" (.dict [])).isDict
  | _ => true

/-- Shape condition under which one message is processed by the
Tool-Call Analyzer without raising: `additional_kwargs` must be a
mapping (or absent), and in the primary branch every entry must satisfy
`tcWF`. -/
def msgWF (message : PyVal) : Bool :=
  match message with
  | .dict mkvs =>
    match PyVal.lookupD mkvs "additional_kwargs" (.dict []) with
    | .dict akkvs =>
      let tool_calls := PyVal.lookupD akkvs "tool_calls" (.list [])
      if tool_calls.truthy && tool_calls.isList then
        match tool_calls with
        | .list tcs => tcs.all tcWF
        | _ => true
      else true
    | _ => false
  | _ => true

/-- Shape condition under which one history item is processed by the
Tool-Call Analyzer without raising: the item and its `values` must be
mappings, and every message must satisfy `msgWF`. -/
def toolItemWF (item : PyVal) : Bool :=
  match item with
  | .dict ikvs =>
    match PyVal.lookupD ikvs "values" (.dict []) with
    | .dict vkvs =>
      match PyVal.lookupD vkvs "messages" (.list []) with
      | .list msgs => msgs.all msgWF
      | _ => true
    | _ => false
  | _ => false

/-- Shape condition on one ThreadRecord under which the user-statistics
pass neither raises on the record nor skips it: the record and its
metadata are mappings and both `user_id` and `thread_id` are truthy. -/
def threadWF (t : PyVal) : Bool :=
  match t with
  | .dict tkvs =>
    match PyVal.lookupD tkvs "metadata" (.dict []) with
    | .dict mkvs =>
      (PyVal.lookupD mkvs "user_id" .none).truthy
        && (PyVal.lookupD tkvs "thread_id" .none).truthy
    | _ => false
  | _ => false

/-- `ok` feeds the continuation. -/
theorem except_ok_bind {ε α β : Type} (a : α) (f : α → Except ε β) :
    (Except.ok a >>= f) = f a := rfl

/-- `error` short-circuits the continuation. -/
theorem except_error_bind {ε α β : Type} (e : ε) (f : α → Except ε β) :
    ((Except.error e : Except ε α) >>= f) = .error e := rfl

/-- Folding a fallible step over a list succeeds when every step
succeeds from every state. -/
theorem foldlM_ok_of_all {α σ : Type} (f : σ → α → Except String σ) :
    ∀ (l : List α) (st : σ), (∀ st' x, x ∈ l → ∃ st'', f st' x = .ok st'') →
      ∃ out, l.foldlM f st = .ok out
  | [], st, _ => ⟨st, rfl⟩
  | x :: xs, st, h => by
    obtain ⟨st1, h1⟩ := h st x (by simp)
    obtain ⟨out, hout⟩ := foldlM_ok_of_all f xs st1 (fun st' y hy => h st' y (by simp [hy]))
    exact ⟨out, by simp [List.foldlM_cons, h1, except_ok_bind, hout]⟩

/-- An invariant preserved by every successful step is preserved by a
successful fallible fold. -/
theorem foldlM_inv {α σ : Type} (P : σ → Prop) (f : σ → α → Except String σ) :
    ∀ (l : List α) (st st' : σ),
      (∀ s x s', x ∈ l → P s → f s x = .ok s' → P s') →
      l.foldlM f st = .ok st' → P st → P st'
  | [], st, st', _, hfold, hP => by
    simp only [List.foldlM_nil] at hfold
    cases hfold
    exact hP
  | x :: xs, st, st', hstep, hfold, hP => by
    simp only [List.foldlM_cons] at hfold
    cases h1 : f st x with
    | error e => rw [h1] at hfold; rw [except_error_bind] at hfold; cases hfold
    | ok st1 =>
      rw [h1] at hfold
      rw [except_ok_bind] at hfold
      exact foldlM_inv P f xs st1 st' (fun s y s' hy => hstep s y s' (by simp [hy]))
        hfold (hstep st x st1 (by simp) hP h1)

/-- An invariant preserved by every step is preserved by a pure fold. -/
theorem foldl_inv {α σ : Type} (P : σ → Prop) (f : σ → α → σ) :
    ∀ (l : List α) (st : σ), (∀ s x, x ∈ l → P s → P (f s x)) →
      P st → P (l.foldl f st)
  | [], _, _, hP => hP
  | x :: xs, st, hstep, hP =>
    foldl_inv P f xs (f st x) (fun s y hy => hstep s y (by simp [hy]))
      (hstep st x (by simp) hP)

/-- Claim C2, corrected — the Conversation Builder does not visit the
second and later history items: the unconditional `break` at line 227 of
src/utils/thread_analytics.py ends the loop after its first iteration,
so the result depends only on the first history item. -/
theorem c2_only_first_item (history_data : List PyVal) :
    extract_conversation_from_history history_data =
      extract_conversation_from_history (history_data.take 1) := by
  cases history_data with
  | nil => rfl
  | cons item rest => rfl

/-- Claim C2, counterexample — a valid message contained in the second
history item does not appear in the returned conversation, even though
the Message Extractor accepts it on its own. -/
theorem c2_second_item_dropped :
    extract_conversation_from_history
      [.dict [("values", .dict [("messages",
          .list [.dict [("type", .str "human"), ("content", .str "first")]])]),
        ("created_at", .str "2024-01-01T00:00:01")],
       .dict [("values", .dict [("messages",
          .list [.dict [("type", .str "human"), ("content", .str "second")]])]),
        ("created_at", .str "2024-01-01T00:00:02")]]
      = .ok [⟨.str "2024-01-01T00:00:01", "User", "first"⟩]
    ∧ _process_message (.dict [("type", .str "human"), ("content", .str "second")])
        (.str "2024-01-01T00:00:02")
      = some ⟨.str "2024-01-01T00:00:02", "User", "second"⟩ := by
  constructor
  · decide
  · decide

/-- Claim C5 — the engine constructor raises only when accessing the
secret store itself raises; when the store is readable but has no
`THREAD_API_URL` entry, `getattr(..., None)` returns `None`, the
`except` branch is not entered, and the engine is constructed with
`base_url = None` instead of raising. -/
theorem c5_missing_url_no_raise :
    ThreadAnalytics_init (SecretsSource.store Option.none) = .ok Option.none
    ∧ ThreadAnalytics_init SecretsSource.raising = .error "Exception"
    ∧ ThreadAnalytics_init (SecretsSource.store (some "https://api.example"))
        = .ok (some "https://api.example") := by
  exact ⟨rfl, rfl, rfl⟩

/-- Spec-side reading of §4.2: the raw role value of a candidate, from
`type` falling back to `role` (key-presence fallback, default
`'unknown'`). -/
def rawRoleOf (kvs : List (String × PyVal)) : PyVal :=
  PyVal.lookupD kvs "type" (PyVal.lookupD kvs "role" (.str "unknown"))

/-- Spec-side reading of §4.2: the raw content value of a candidate,
from `content` falling back to `text` falling back to `message`. -/
def rawContentOf (kvs : List (String × PyVal)) : PyVal :=
  PyVal.lookupD kvs "content"
    (PyVal.lookupD kvs "text" (PyVal.lookupD kvs "message" (.str "")))

/-- Spec-side reading of §4.2: list-valued content is joined with spaces
over its truthy items, mapping-valued content is stringified, everything
else is kept as is. -/
def normContent : PyVal → PyVal
  | .list xs => .str (String.intercalate " " ((xs.filter PyVal.truthy).map PyVal.pyStr))
  | .dict kvs => .str (PyVal.pyStr (.dict kvs))
  | v => v

/-- Characterization of `_process_message` on mapping candidates in
terms of the spec-side readings. -/
theorem process_message_eq (kvs : List (String × PyVal)) (ts : PyVal) :
    _process_message (.dict kvs) ts =
      if ((normContent (rawContentOf kvs)).truthy = true
          ∧ pyStrip (PyVal.pyStr (normContent (rawContentOf kvs))) ≠ ""
          ∧ rawRoleOf kvs ∈ validRoleVals) then
        some ⟨ts,
          (if rawRoleOf kvs ∈ ([PyVal.str "human", PyVal.str "user"] : List PyVal)
            then "User" else "AI"),
          pyStrip (PyVal.pyStr (normContent (rawContentOf kvs)))⟩
      else Option.none := by
  by_cases ht : (normContent (rawContentOf kvs)).truthy = true <;>
    by_cases hs : pyStrip (PyVal.pyStr (normContent (rawContentOf kvs))) = "" <;>
      by_cases hr : rawRoleOf kvs ∈ validRoleVals <;>
        simp only [_process_message, normContent, rawRoleOf, rawContentOf] at * <;>
          simp [ht, hs, hr]

/-- Claim C4, amended — a mapping candidate yields a Message iff its
normalized content value is truthy and strips to a non-empty string and
its raw role value is exactly (case-sensitively — the source applies no
lowercasing) one of `human`, `ai`, `user`, `assistant`; roles
`human`/`user` map to `User` and the others in the set to `AI`; the
content is the stripped stringified value, the timestamp the one passed
in; any non-mapping candidate yields nothing. -/
theorem c4_message_filter :
    (∀ (kvs : List (String × PyVal)) (ts : PyVal),
      (_process_message (.dict kvs) ts).isSome ↔
        ((normContent (rawContentOf kvs)).truthy = true
          ∧ pyStrip (PyVal.pyStr (normContent (rawContentOf kvs))) ≠ ""
          ∧ rawRoleOf kvs ∈ validRoleVals))
    ∧ (∀ (kvs : List (String × PyVal)) (ts : PyVal) (out : Msg),
        _process_message (.dict kvs) ts = some out →
          out.role = (if rawRoleOf kvs ∈ ([.str "human", .str "user"] : List PyVal)
              then "User" else "AI")
          ∧ out.content = pyStrip (PyVal.pyStr (normContent (rawContentOf kvs)))
          ∧ out.timestamp = ts)
    ∧ (∀ (v : PyVal) (ts : PyVal), v.isDict = false →
        _process_message v ts = Option.none) := by
  refine ⟨fun kvs ts => ?_, fun kvs ts out h => ?_, fun v ts hv => ?_⟩
  · rw [process_message_eq]
    split
    · rename_i hcond
      simpa using hcond
    · rename_i hcond
      simpa using hcond
  · rw [process_message_eq] at h
    split at h
    · cases h
      exact ⟨rfl, rfl, rfl⟩
    · cases h
  · cases v <;> simp_all [_process_message, PyVal.isDict]

/-- Claim C4, counterexample — the source compares the raw role without
lowercasing, so a candidate with role `"HUMAN"` and non-empty content is
discarded even though its lowercased role is in the recognized set. -/
theorem c4_lowercase_not_applied :
    _process_message (.dict [("type", .str "HUMAN"), ("content", .str "hi")])
        (.str "2024-01-01T00:00:00") = Option.none
    ∧ pyStrip "hi" ≠ ""
    ∧ (PyVal.str (pyLower "HUMAN")) ∈ validRoleVals := by
  refine ⟨by decide, by decide, by decide⟩

/-- Witness for C4: a well-formed `human` candidate is accepted. -/
theorem c4_message_filter_witness :
    (_process_message (.dict [("type", .str "human"), ("content", .str " hi ")])
      (.str "t")).isSome = true :=
  (c4_message_filter.1 [("type", .str "human"), ("content", .str " hi ")]
    (.str "t")).mpr (by decide)

/-- One `additional_kwargs.tool_calls` entry is processed without
raising whenever its `function` value is a mapping. -/
theorem procToolCallPrimary_ok (ca mt mi : PyVal) (st : ToolStats × List PyVal)
    (tc : PyVal) (h : tcWF tc = true) :
    ∃ st', procToolCallPrimary ca mt mi st tc = .ok st' := by
  cases tc with
  | dict tckvs =>
    simp only [tcWF] at h
    cases hf : PyVal.lookupD tckvs "function" (.dict []) with
    | dict fkvs =>
      simp only [procToolCallPrimary, hf]
      split
      · exact ⟨_, rfl⟩
      · exact ⟨_, rfl⟩
    | none => rw [hf] at h; cases h
    | str s => rw [hf] at h; cases h
    | int n => rw [hf] at h; cases h
    | list xs => rw [hf] at h; cases h
  | none => exact ⟨st, rfl⟩
  | str s => exact ⟨st, rfl⟩
  | int n => exact ⟨st, rfl⟩
  | list xs => exact ⟨st, rfl⟩

/-- One message is processed by the Tool-Call Analyzer without raising
whenever it satisfies `msgWF`. -/
theorem procMessageTools_ok (ca : PyVal) (st : ToolStats × List PyVal)
    (message : PyVal) (h : msgWF message = true) :
    ∃ st', procMessageTools ca st message = .ok st' := by
  cases message with
  | dict mkvs =>
    cases hak : PyVal.lookupD mkvs "additional_kwargs" (.dict []) with
    | dict akkvs =>
      simp only [msgWF, hak] at h
      simp only [procMessageTools, hak]
      by_cases hc : ((PyVal.lookupD akkvs "tool_calls" (.list [])).truthy
          && (PyVal.lookupD akkvs "tool_calls" (.list [])).isList) = true
      · rw [if_pos hc] at h ⊢
        cases htc : PyVal.lookupD akkvs "tool_calls" (.list []) with
        | list tcs =>
          simp only [htc] at h
          exact foldlM_ok_of_all _ tcs st
            (fun st' x hx => procToolCallPrimary_ok ca _ _ st' x
              (by exact List.all_eq_true.mp h x hx))
        | none => exact ⟨st, rfl⟩
        | str s => exact ⟨st, rfl⟩
        | int n => exact ⟨st, rfl⟩
        | dict kvs' => exact ⟨st, rfl⟩
      · rw [if_neg hc]
        cases PyVal.lookupD mkvs "tool_calls" (.list []) with
        | list tcs => exact ⟨_, rfl⟩
        | none => exact ⟨st, rfl⟩
        | str s => exact ⟨st, rfl⟩
        | int n => exact ⟨st, rfl⟩
        | dict kvs' => exact ⟨st, rfl⟩
    | none => simp only [msgWF, hak] at h; cases h
    | str s => simp only [msgWF, hak] at h; cases h
    | int n => simp only [msgWF, hak] at h; cases h
    | list xs => simp only [msgWF, hak] at h; cases h
  | none => exact ⟨st, rfl⟩
  | str s => exact ⟨st, rfl⟩
  | int n => exact ⟨st, rfl⟩
  | list xs => exact ⟨st, rfl⟩

/-- One history item is processed by the Tool-Call Analyzer without
raising whenever it satisfies `toolItemWF`. -/
theorem procItemTools_ok (st : ToolStats × List PyVal) (item : PyVal)
    (h : toolItemWF item = true) :
    ∃ st', procItemTools st item = .ok st' := by
  cases item with
  | dict ikvs =>
    cases hv : PyVal.lookupD ikvs "values" (.dict []) with
    | dict vkvs =>
      simp only [toolItemWF, hv] at h
      simp only [procItemTools, hv]
      cases hm : PyVal.lookupD vkvs "messages" (.list []) with
      | list msgs =>
        simp only [hm] at h
        exact foldlM_ok_of_all _ msgs st
          (fun st' x hx => procMessageTools_ok _ st' x (List.all_eq_true.mp h x hx))
      | none => exact ⟨st, rfl⟩
      | str s => exact ⟨st, rfl⟩
      | int n => exact ⟨st, rfl⟩
      | dict kvs' => exact ⟨st, rfl⟩
    | none => simp only [toolItemWF, hv] at h; cases h
    | str s => simp only [toolItemWF, hv] at h; cases h
    | int n => simp only [toolItemWF, hv] at h; cases h
    | list xs => simp only [toolItemWF, hv] at h; cases h
  | none => cases h
  | str s => cases h
  | int n => cases h
  | list xs => cases h

/-- Claim C3, amended — the Conversation Builder fails closed for shape
errors but is not exception-free: a non-mapping first history item makes
it return `[]` for the whole call (instead of skipping just that item);
the only exception it can raise is the final sort's `TypeError`, which
happens exactly when the first item is a mapping whose accumulated key
column is unorderable (e.g. a `None` or mapping `created_at` with at
least two extracted messages — see the counterexample); and the
Tool-Call Analyzer does return normally on every history list whose
items, `values`, and messages are well-shaped mappings, but (see the
counterexample) raises `AttributeError` on a non-mapping item or
`values`. -/
theorem c3_fail_closed_scope :
    (∀ (v : PyVal) (rest : List PyVal), v.isDict = false →
      extract_conversation_from_history (v :: rest) = .ok [])
    ∧ (∀ (history : List PyVal) (e : String),
        extract_conversation_from_history history = .error e →
          e = "TypeError" ∧ ∃ kvs tail, history = .dict kvs :: tail
            ∧ timestampsOrderable (conversationOfItem kvs) = false)
    ∧ (∀ history : List PyVal, history.all toolItemWF = true →
        ∃ s, analyze_tool_calling_stats history = .ok s) := by
  refine ⟨?_, ?_, ?_⟩
  · intro v rest hv
    cases v <;> simp_all [extract_conversation_from_history, PyVal.isDict]
  · intro history e h
    cases history with
    | nil => cases h
    | cons item tail =>
      cases item with
      | dict kvs =>
        simp only [extract_conversation_from_history, pySortByTimestamp] at h
        by_cases ho : timestampsOrderable (conversationOfItem kvs) = true
        · rw [if_pos ho] at h; cases h
        · rw [if_neg ho] at h
          cases h
          exact ⟨rfl, kvs, tail, rfl, by simpa using ho⟩
      | none => cases h
      | str s => cases h
      | int n => cases h
      | list xs => cases h
  · intro history h
    by_cases he : history.isEmpty
    · exact ⟨⟨0, 0, 0, []⟩, by simp [analyze_tool_calling_stats, he]⟩
    · obtain ⟨out, hout⟩ := foldlM_ok_of_all procItemTools history (⟨0, 0, 0, []⟩, [])
        (fun st' x hx => procItemTools_ok st' x (List.all_eq_true.mp h x hx))
      exact ⟨out.1, by simp [analyze_tool_calling_stats, he, hout, Except.map]⟩

/-- Claim C3, counterexample — `analyze_tool_calling_stats` raises
`AttributeError` on a list-valued `values` payload and on a non-mapping
history item; the Conversation Builder answers `[]` for the whole call
when the first item is malformed even though a later item carries a
valid message; and the Conversation Builder itself raises `TypeError`
from the final sort when a mapping first item has a `None` `created_at`
and two valid messages. -/
theorem c3_analyzer_raises :
    analyze_tool_calling_stats [.dict [("values", .list [])]] = .error "AttributeError"
    ∧ analyze_tool_calling_stats [.int 3] = .error "AttributeError"
    ∧ extract_conversation_from_history
        [.int 3,
         .dict [("values", .dict [("messages",
            .list [.dict [("type", .str "human"), ("content", .str "hi")]])]),
          ("created_at", .str "t")]] = .ok []
    ∧ extract_conversation_from_history
        [.dict [("values", .dict [("messages",
            .list [.dict [("type", .str "human"), ("content", .str "hi")]])]),
          ("created_at", .str "t")]] = .ok [⟨.str "t", "User", "hi"⟩]
    ∧ extract_conversation_from_history
        [.dict [("values", .dict [("messages",
            .list [.dict [("type", .str "human"), ("content", .str "a")],
              .dict [("type", .str "human"), ("content", .str "b")]])]),
          ("created_at", PyVal.none)]] = .error "TypeError" := by
  refine ⟨by decide, by decide, by decide, by decide, by decide⟩

/-- Witness for C3: the three amended statements at concrete inputs. -/
theorem c3_fail_closed_scope_witness :
    extract_conversation_from_history [.int 7, .dict [("values", .dict [])]] = .ok []
    ∧ ("TypeError" = "TypeError" ∧ ∃ kvs tail,
        ([.dict [("values", .dict [("messages",
            .list [.dict [("type", .str "human"), ("content", .str "a")],
              .dict [("type", .str "human"), ("content", .str "b")]])]),
          ("created_at", PyVal.none)]] : List PyVal) = .dict kvs :: tail
          ∧ timestampsOrderable (conversationOfItem kvs) = false)
    ∧ ∃ s, analyze_tool_calling_stats
        [.dict [("values", .dict [("messages", .list [.dict []])])]] = .ok s :=
  ⟨c3_fail_closed_scope.1 (.int 7) [.dict [("values", .dict [])]] (by decide),
    c3_fail_closed_scope.2.1
      [.dict [("values", .dict [("messages",
          .list [.dict [("type", .str "human"), ("content", .str "a")],
            .dict [("type", .str "human"), ("content", .str "b")]])]),
        ("created_at", PyVal.none)]] "TypeError" (by decide),
    c3_fail_closed_scope.2.2
      [.dict [("values", .dict [("messages", .list [.dict []])])]]
      (by decide)⟩

/-- The invariant carried by the Tool-Call Analyzer's fold: the running
total equals the detail count, each named counter counts exactly the
matching detail entries, detail call ids are pairwise distinct, and
every recorded id is in the processed set. -/
def ToolInv (st : ToolStats × List PyVal) : Prop :=
  st.1.total_tool_calls = st.1.tool_calls_detail.length
  ∧ st.1.create_lead = (st.1.tool_calls_detail.filter
      (fun d => d.function_name = .str "create_lead")).length
  ∧ st.1.send_html_email = (st.1.tool_calls_detail.filter
      (fun d => d.function_name = .str "send_html_email")).length
  ∧ (st.1.tool_calls_detail.map (·.call_id)).Nodup
  ∧ ∀ d ∈ st.1.tool_calls_detail, d.call_id ∈ st.2

/-- Counting one fresh call preserves the invariant. -/
theorem countCall_inv (st : ToolStats × List PyVal)
    (fname cid args ts mtype mid : PyVal) (hnew : cid ∉ st.2) (hinv : ToolInv st) :
    ToolInv (countCall st fname cid args ts mtype mid) := by
  obtain ⟨h1, h2, h3, h4, h5⟩ := hinv
  have hcid_not_in : cid ∉ st.1.tool_calls_detail.map (·.call_id) := by
    intro hmem
    obtain ⟨d, hd, hdc⟩ := List.mem_map.mp hmem
    exact hnew (hdc ▸ h5 d hd)
  unfold countCall
  by_cases hc : fname = PyVal.str "create_lead"
  · refine ⟨?_, ?_, ?_, ?_, ?_⟩ <;>
      simp_all [List.filter_append, List.nodup_append]
    · intro d hd
      rcases hd with hd | hd
      · exact .inr (h5 d hd)
      · simp [hd]
  · by_cases hs : fname = PyVal.str "send_html_email"
    · refine ⟨?_, ?_, ?_, ?_, ?_⟩ <;>
        simp_all [List.filter_append, List.nodup_append]
      · intro d hd
        rcases hd with hd | hd
        · exact .inr (h5 d hd)
        · simp [hd]
    · refine ⟨?_, ?_, ?_, ?_, ?_⟩ <;>
        simp_all [List.filter_append, List.nodup_append]
      · intro d hd
        rcases hd with hd | hd
        · exact .inr (h5 d hd)
        · simp [hd]

/-- The primary tool-call branch preserves the invariant. -/
theorem procToolCallPrimary_inv (ca mt mi : PyVal) (st st' : ToolStats × List PyVal)
    (tc : PyVal) (hinv : ToolInv st)
    (h : procToolCallPrimary ca mt mi st tc = .ok st') : ToolInv st' := by
  cases tc with
  | dict tckvs =>
    simp only [procToolCallPrimary] at h
    cases hf : PyVal.lookupD tckvs "function" (.dict []) with
    | dict fkvs =>
      simp only [hf] at h
      by_cases hc : ((PyVal.lookupD fkvs "name" (.str "")).truthy
          && (PyVal.lookupD tckvs "id" (.str "")).truthy
          && decide (PyVal.lookupD tckvs "id" (.str "") ∉ st.2)) = true
      · rw [if_pos hc] at h
        cases h
        simp only [Bool.and_eq_true, decide_eq_true_eq] at hc
        exact countCall_inv st _ _ _ _ _ _ hc.2 hinv
      · rw [if_neg hc] at h
        cases h
        exact hinv
    | none => simp only [hf] at h; cases h
    | str s => simp only [hf] at h; cases h
    | int n => simp only [hf] at h; cases h
    | list xs => simp only [hf] at h; cases h
  | none => cases h; exact hinv
  | str s => cases h; exact hinv
  | int n => cases h; exact hinv
  | list xs => cases h; exact hinv

/-- The fallback tool-call branch preserves the invariant. -/
theorem procToolCallFallback_inv (ca mt mi : PyVal) (st : ToolStats × List PyVal)
    (tc : PyVal) (hinv : ToolInv st) :
    ToolInv (procToolCallFallback ca mt mi st tc) := by
  cases tc with
  | dict tckvs =>
    simp only [procToolCallFallback]
    by_cases hc : ((PyVal.lookupD tckvs "name" (.str "")).truthy
        && (PyVal.lookupD tckvs "id" (.str "")).truthy
        && decide (PyVal.lookupD tckvs "id" (.str "") ∉ st.2)) = true
    · rw [if_pos hc]
      simp only [Bool.and_eq_true, decide_eq_true_eq] at hc
      exact countCall_inv st _ _ _ _ _ _ hc.2 hinv
    · rw [if_neg hc]
      exact hinv
  | none => exact hinv
  | str s => exact hinv
  | int n => exact hinv
  | list xs => exact hinv

/-- Processing one message preserves the invariant. -/
theorem procMessageTools_inv (ca : PyVal) (st st' : ToolStats × List PyVal)
    (message : PyVal) (hinv : ToolInv st)
    (h : procMessageTools ca st message = .ok st') : ToolInv st' := by
  cases message with
  | dict mkvs =>
    simp only [procMessageTools] at h
    cases hak : PyVal.lookupD mkvs "additional_kwargs" (.dict []) with
    | dict akkvs =>
      simp only [hak] at h
      by_cases hc : ((PyVal.lookupD akkvs "tool_calls" (.list [])).truthy
          && (PyVal.lookupD akkvs "tool_calls" (.list [])).isList) = true
      · rw [if_pos hc] at h
        cases htc : PyVal.lookupD akkvs "tool_calls" (.list []) with
        | list tcs =>
          simp only [htc] at h
          exact foldlM_inv ToolInv _ tcs st st'
            (fun s x s' _ hs hstep => procToolCallPrimary_inv ca _ _ s s' x hs hstep)
            h hinv
        | none => simp only [htc] at h; cases h; exact hinv
        | str s => simp only [htc] at h; cases h; exact hinv
        | int n => simp only [htc] at h; cases h; exact hinv
        | dict kvs' => simp only [htc] at h; cases h; exact hinv
      · rw [if_neg hc] at h
        cases hdt : PyVal.lookupD mkvs "tool_calls" (.list []) with
        | list tcs =>
          simp only [hdt] at h
          cases h
          exact foldl_inv ToolInv _ tcs st
            (fun s x _ hs => procToolCallFallback_inv ca _ _ s x hs) hinv
        | none => simp only [hdt] at h; cases h; exact hinv
        | str s => simp only [hdt] at h; cases h; exact hinv
        | int n => simp only [hdt] at h; cases h; exact hinv
        | dict kvs' => simp only [hdt] at h; cases h; exact hinv
    | none => simp only [hak] at h; cases h
    | str s => simp only [hak] at h; cases h
    | int n => simp only [hak] at h; cases h
    | list xs => simp only [hak] at h; cases h
  | none => cases h; exact hinv
  | str s => cases h; exact hinv
  | int n => cases h; exact hinv
  | list xs => cases h; exact hinv

/-- Processing one history item preserves the invariant. -/
theorem procItemTools_inv (st st' : ToolStats × List PyVal) (item : PyVal)
    (hinv : ToolInv st) (h : procItemTools st item = .ok st') : ToolInv st' := by
  cases item with
  | dict ikvs =>
    simp only [procItemTools] at h
    cases hv : PyVal.lookupD ikvs "values" (.dict []) with
    | dict vkvs =>
      simp only [hv] at h
      cases hm : PyVal.lookupD vkvs "messages" (.list []) with
      | list msgs =>
        simp only [hm] at h
        exact foldlM_inv ToolInv _ msgs st st'
          (fun s x s' _ hs hstep => procMessageTools_inv _ s s' x hs hstep) h hinv
      | none => simp only [hm] at h; cases h; exact hinv
      | str s => simp only [hm] at h; cases h; exact hinv
      | int n => simp only [hm] at h; cases h; exact hinv
      | dict kvs' => simp only [hm] at h; cases h; exact hinv
    | none => simp only [hv] at h; cases h
    | str s => simp only [hv] at h; cases h
    | int n => simp only [hv] at h; cases h
    | list xs => simp only [hv] at h; cases h
  | none => cases h
  | str s => cases h
  | int n => cases h
  | list xs => cases h

/-- Master statement for the Tool-Call Analyzer: every successful run
satisfies the counting and deduplication invariant. -/
theorem analyze_tool_inv (history : List PyVal) (s : ToolStats)
    (h : analyze_tool_calling_stats history = .ok s) :
    s.total_tool_calls = s.tool_calls_detail.length
    ∧ s.create_lead = (s.tool_calls_detail.filter
        (fun d => d.function_name = .str "create_lead")).length
    ∧ s.send_html_email = (s.tool_calls_detail.filter
        (fun d => d.function_name = .str "send_html_email")).length
    ∧ (s.tool_calls_detail.map (·.call_id)).Nodup := by
  have hinit : ToolInv ((⟨0, 0, 0, []⟩ : ToolStats), ([] : List PyVal)) := by
    refine ⟨rfl, rfl, rfl, List.nodup_nil, ?_⟩
    intro d hd
    cases hd
  simp only [analyze_tool_calling_stats] at h
  by_cases he : history.isEmpty
  · rw [if_pos he] at h
    cases h
    exact ⟨rfl, rfl, rfl, List.nodup_nil⟩
  · rw [if_neg he] at h
    cases hfold : history.foldlM procItemTools ((⟨0, 0, 0, []⟩ : ToolStats), []) with
    | error e => rw [hfold] at h; cases h
    | ok st' =>
      rw [hfold] at h
      simp only [Except.map] at h
      cases h
      obtain ⟨h1, h2, h3, h4, _⟩ :=
        foldlM_inv ToolInv procItemTools history _ st'
          (fun a x s' _ hs hstep => procItemTools_inv a s' x hs hstep) hfold hinit
      exact ⟨h1, h2, h3, h4⟩

/-- Two disjoint filters of one list together keep at most all of it. -/
theorem filter_disjoint_length_le {α : Type} (p q : α → Bool)
    (hdis : ∀ x, p x = true → q x = false) :
    ∀ l : List α, (l.filter p).length + (l.filter q).length ≤ l.length
  | [] => by simp
  | x :: xs => by
    have ih := filter_disjoint_length_le p q hdis xs
    by_cases hp : p x = true
    · have hq := hdis x hp
      simp [List.filter_cons, hp, hq]
      omega
    · by_cases hq : q x = true
      · simp [List.filter_cons, hp, hq]
        omega
      · simp [List.filter_cons, hp, hq]
        omega

/-- Claim C10 — every successful Tool-Call Analyzer run satisfies
`total_tool_calls = |tool_calls_detail|` and
`create_lead + send_html_email <= total_tool_calls`: each accepted call
bumps the total exactly once and appends exactly one detail entry, and
the two named counters count disjoint subsets of the detail list. -/
theorem c10_tool_stats_invariants (history : List PyVal) (s : ToolStats)
    (h : analyze_tool_calling_stats history = .ok s) :
    s.total_tool_calls = s.tool_calls_detail.length
    ∧ s.create_lead + s.send_html_email ≤ s.total_tool_calls := by
  obtain ⟨h1, h2, h3, _⟩ := analyze_tool_inv history s h
  refine ⟨h1, ?_⟩
  rw [h1, h2, h3]
  exact filter_disjoint_length_le _ _
    (fun d hd => by
      simp only [decide_eq_true_eq] at hd
      simp [hd])
    s.tool_calls_detail

/-- Witness for C10 at a concrete two-call history. -/
theorem c10_tool_stats_invariants_witness :
    (⟨1, 1, 2, [⟨.str "create_lead", .str "c1", .str "", .str "", .str "", .str ""⟩,
        ⟨.str "send_html_email", .str "c2", .str "", .str "", .str "", .str ""⟩]⟩
      : ToolStats).total_tool_calls
        = (⟨1, 1, 2, [⟨.str "create_lead", .str "c1", .str "", .str "", .str "", .str ""⟩,
            ⟨.str "send_html_email", .str "c2", .str "", .str "", .str "", .str ""⟩]⟩
          : ToolStats).tool_calls_detail.length
    ∧ (1 : Nat) + 1 ≤ 2 :=
  c10_tool_stats_invariants
    [.dict [("values", .dict [("messages", .list [.dict [("additional_kwargs",
      .dict [("tool_calls", .list
        [.dict [("id", .str "c1"), ("function", .dict [("name", .str "create_lead")])],
         .dict [("id", .str "c2"), ("function", .dict [("name", .str "send_html_email")])]])])]])])]]
    _ (by decide)

/-- Claim C6 — deduplication by `call_id` within one analysis pass: a
successful run's detail list has pairwise-distinct call ids and each
named counter counts exactly the matching detail entries, so an already
seen id is never counted again in the total, the counters, or the
detail; in particular a history repeating the same `create_lead` call
(same id) in two overlapping items yields `create_lead = 1` and
`total_tool_calls = 1`. -/
theorem c6_call_id_dedup :
    (∀ (history : List PyVal) (s : ToolStats),
      analyze_tool_calling_stats history = .ok s →
        (s.tool_calls_detail.map (·.call_id)).Nodup
        ∧ s.create_lead = (s.tool_calls_detail.filter
            (fun d => d.function_name = .str "create_lead")).length
        ∧ s.send_html_email = (s.tool_calls_detail.filter
            (fun d => d.function_name = .str "send_html_email")).length)
    ∧ analyze_tool_calling_stats
        [.dict [("values", .dict [("messages", .list [.dict [("additional_kwargs",
           .dict [("tool_calls", .list [.dict [("id", .str "c1"),
             ("function", .dict [("name", .str "create_lead"),
               ("arguments", .str "\x7b\x7d")])]])])]])])],
         .dict [("values", .dict [("messages", .list [.dict [("additional_kwargs",
           .dict [("tool_calls", .list [.dict [("id", .str "c1"),
             ("function", .dict [("name", .str "create_lead"),
               ("arguments", .str "\x7b\x7d")])]])])]])])]]
      = .ok ⟨1, 0, 1,
          [⟨.str "create_lead", .str "c1", .str "\x7b\x7d", .str "", .str "", .str ""⟩]⟩ := by
  constructor
  · intro history s h
    obtain ⟨_, h2, h3, h4⟩ := analyze_tool_inv history s h
    exact ⟨h4, h2, h3⟩
  · decide

/-- Witness for C6 at the duplicate-page history. -/
theorem c6_call_id_dedup_witness :
    (([⟨.str "create_lead", .str "c1", .str "\x7b\x7d", .str "", .str "", .str ""⟩]
        : List ToolCallDetail).map (·.call_id)).Nodup
    ∧ (1 : Nat) = (([⟨.str "create_lead", .str "c1", .str "\x7b\x7d", .str "", .str "",
        .str ""⟩] : List ToolCallDetail).filter
          (fun d => d.function_name = .str "create_lead")).length
    ∧ (0 : Nat) = (([⟨.str "create_lead", .str "c1", .str "\x7b\x7d", .str "", .str "",
        .str ""⟩] : List ToolCallDetail).filter
          (fun d => d.function_name = .str "send_html_email")).length :=
  c6_call_id_dedup.1
    [.dict [("values", .dict [("messages", .list [.dict [("additional_kwargs",
       .dict [("tool_calls", .list [.dict [("id", .str "c1"),
         ("function", .dict [("name", .str "create_lead"),
           ("arguments", .str "\x7b\x7d")])]])])]])])],
     .dict [("values", .dict [("messages", .list [.dict [("additional_kwargs",
       .dict [("tool_calls", .list [.dict [("id", .str "c1"),
         ("function", .dict [("name", .str "create_lead"),
           ("arguments", .str "\x7b\x7d")])]])])]])])]]
    ⟨1, 0, 1, [⟨.str "create_lead", .str "c1", .str "\x7b\x7d", .str "", .str "", .str ""⟩]⟩
    (by decide)

/-- A relation holding between all pairs of members holds pairwise. -/
theorem pairwise_of_all {α : Type} {r : α → α → Prop} :
    ∀ l : List α, (∀ a ∈ l, ∀ b ∈ l, r a b) → List.Pairwise r l
  | [], _ => List.Pairwise.nil
  | x :: xs, h =>
    List.Pairwise.cons (fun b hb => h x (by simp) b (by simp [hb]))
      (pairwise_of_all xs (fun a ha b hb => h a (by simp [ha]) b (by simp [hb])))

/-- A produced message inherits the timestamp passed to the Message
Extractor. -/
theorem process_message_timestamp (msg ts : PyVal) (out : Msg)
    (h : _process_message msg ts = some out) : out.timestamp = ts := by
  cases msg with
  | dict kvs =>
    rw [process_message_eq] at h
    split at h
    · cases h; rfl
    · cases h
  | none => cases h
  | str s => cases h
  | int n => cases h
  | list xs => cases h

/-- Every message accumulated from one history item carries that item's
`created_at` as its timestamp. -/
theorem conversationOfItem_ts (kvs : List (String × PyVal)) :
    ∀ m ∈ conversationOfItem kvs,
      m.timestamp = PyVal.lookupD kvs "created_at" (.str "") := by
  unfold conversationOfItem
  refine foldl_inv (fun (acc : List Msg) => ∀ m ∈ acc,
      m.timestamp = PyVal.lookupD kvs "created_at" (.str "")) _ _ []
    ?_ (by intro m hm; cases hm)
  intro acc value _ hacc m hm
  cases value with
  | dict vkvs =>
    simp only [List.mem_append] at hm
    rcases hm with hm | hm
    · exact hacc m hm
    · obtain ⟨raw, _, hraw⟩ := List.mem_filterMap.mp hm
      exact process_message_timestamp raw _ m hraw
  | none => exact hacc m hm
  | str s => exact hacc m hm
  | int n => exact hacc m hm
  | list xs => exact hacc m hm

/-- The accumulated conversation of one history item is pairwise ordered
whenever its key column is orderable: all its timestamps are the same
value. -/
theorem conversationOfItem_pairwise (kvs : List (String × PyVal))
    (ho : timestampsOrderable (conversationOfItem kvs) = true) :
    List.Pairwise tsLe (conversationOfItem kvs) := by
  have keyStr : ∀ v : PyVal,
      (match v with | PyVal.str _ => true | _ => false) = true → pyLeB v v = true := by
    intro v hv
    cases v <;> simp_all [pyLeB, strLeB_refl]
  have keyInt : ∀ v : PyVal,
      (match v with | PyVal.int _ => true | _ => false) = true → pyLeB v v = true := by
    intro v hv
    cases v <;> simp_all [pyLeB]
  simp only [timestampsOrderable, Bool.or_eq_true, decide_eq_true_eq] at ho
  rcases ho with (h1 | h2) | h3
  · cases hl : conversationOfItem kvs with
    | nil => exact List.Pairwise.nil
    | cons m ms =>
      cases ms with
      | nil => exact List.pairwise_singleton _ _
      | cons m2 ms2 => rw [hl] at h1; simp at h1
  · refine pairwise_of_all _ (fun a ha b hb => ?_)
    have hta := conversationOfItem_ts kvs a ha
    have htb := conversationOfItem_ts kvs b hb
    have hsa := List.all_eq_true.mp h2 a ha
    show pyLeB a.timestamp b.timestamp = true
    rw [hta, htb]
    exact keyStr _ (hta ▸ hsa)
  · refine pairwise_of_all _ (fun a ha b hb => ?_)
    have hta := conversationOfItem_ts kvs a ha
    have htb := conversationOfItem_ts kvs b hb
    have hsa := List.all_eq_true.mp h3 a ha
    show pyLeB a.timestamp b.timestamp = true
    rw [hta, htb]
    exact keyInt _ (hta ▸ hsa)

/-- Claim C7 — every conversation produced by the Conversation Builder
is sorted ascending by its timestamp (adjacent comparisons under the
Python key order), and the stable sort keeps the insertion order of
messages with equal timestamps: in fact the produced conversation equals
the pre-sort accumulation, because all messages of one extraction share
the first history item's `created_at`. -/
theorem c7_sorted_stable (history : List PyVal) (conv : List Msg)
    (h : extract_conversation_from_history history = .ok conv) :
    List.Chain' tsLe conv ∧ conv = extractUnsorted history := by
  cases history with
  | nil =>
    cases h
    exact ⟨List.chain'_nil, rfl⟩
  | cons item rest =>
    cases item with
    | dict kvs =>
      simp only [extract_conversation_from_history, pySortByTimestamp] at h
      by_cases ho : timestampsOrderable (conversationOfItem kvs) = true
      · rw [if_pos ho] at h
        cases h
        have hpw := conversationOfItem_pairwise kvs ho
        have heq := List.Sorted.insertionSort_eq hpw
        refine ⟨?_, heq⟩
        rw [heq]
        exact List.Pairwise.chain' hpw
      · rw [if_neg ho] at h
        cases h
    | none => cases h; exact ⟨List.chain'_nil, rfl⟩
    | str s => cases h; exact ⟨List.chain'_nil, rfl⟩
    | int n => cases h; exact ⟨List.chain'_nil, rfl⟩
    | list xs => cases h; exact ⟨List.chain'_nil, rfl⟩

/-- Witness for C7 at a concrete two-message history. -/
theorem c7_sorted_stable_witness :
    List.Chain' tsLe [⟨.str "2024-01-01T00:00:00", "User", "hi"⟩,
      ⟨.str "2024-01-01T00:00:00", "AI", "hello"⟩]
    ∧ [⟨.str "2024-01-01T00:00:00", "User", "hi"⟩,
        (⟨.str "2024-01-01T00:00:00", "AI", "hello"⟩ : Msg)] =
      extractUnsorted
        [.dict [("values", .dict [("messages",
            .list [.dict [("type", .str "human"), ("content", .str "hi")],
              .dict [("type", .str "ai"), ("content", .str "hello")]])]),
          ("created_at", .str "2024-01-01T00:00:00")]] :=
  c7_sorted_stable
    [.dict [("values", .dict [("messages",
        .list [.dict [("type", .str "human"), ("content", .str "hi")],
          .dict [("type", .str "ai"), ("content", .str "hello")]])]),
      ("created_at", .str "2024-01-01T00:00:00")]]
    [⟨.str "2024-01-01T00:00:00", "User", "hi"⟩,
      ⟨.str "2024-01-01T00:00:00", "AI", "hello"⟩]
    (by decide)

/-- The deduplication fold computes exactly the reference recursion:
from state `(seen, acc)` it appends the first occurrences of the unseen
keys. -/
theorem dedup_fold_eq_firstOccur :
    ∀ (conv : List Msg) (seen : List String) (acc : List Msg)
      (out : List String × List Msg),
      conv.foldlM dedupStep (seen, acc) = .ok out →
      out.2 = acc ++ firstOccur seen conv
  | [], seen, acc, out, h => by
    simp only [List.foldlM_nil] at h
    cases h
    simp [firstOccur]
  | m :: rest, seen, acc, out, h => by
    simp only [List.foldlM_cons] at h
    by_cases hemp : pyStrip m.content = ""
    · rw [show dedupStep (seen, acc) m = .ok (seen, acc) from by
        simp [dedupStep, hemp]] at h
      rw [except_ok_bind] at h
      rw [dedup_fold_eq_firstOccur rest seen acc out h]
      simp [firstOccur, hemp]
    · cases hk : msg_key m with
      | error e =>
        rw [show dedupStep (seen, acc) m = .error e from by
          simp [dedupStep, hemp, hk, except_error_bind]] at h
        rw [except_error_bind] at h
        cases h
      | ok k =>
        by_cases hseen : k ∈ seen
        · rw [show dedupStep (seen, acc) m = .ok (seen, acc) from by
            simp [dedupStep, hemp, hk, except_ok_bind, hseen]] at h
          rw [except_ok_bind] at h
          rw [dedup_fold_eq_firstOccur rest seen acc out h]
          simp [firstOccur, hemp, msgKeyT, hk, hseen, Except.toOption]
        · rw [show dedupStep (seen, acc) m = .ok (k :: seen, acc ++ [m]) from by
            simp [dedupStep, hemp, hk, except_ok_bind, hseen]] at h
          rw [except_ok_bind] at h
          rw [dedup_fold_eq_firstOccur rest (k :: seen) (acc ++ [m]) out h]
          simp [firstOccur, hemp, msgKeyT, hk, hseen, Except.toOption]

/-- The reference recursion keeps a subsequence of its input. -/
theorem firstOccur_sublist : ∀ (seen : List String) (conv : List Msg),
    (firstOccur seen conv).Sublist conv
  | _, [] => List.Sublist.refl []
  | seen, m :: rest => by
    simp only [firstOccur]
    by_cases hemp : pyStrip m.content = ""
    · rw [if_pos hemp]
      exact (firstOccur_sublist seen rest).cons m
    · rw [if_neg hemp]
      cases hk : msgKeyT m with
      | some k =>
        simp only [hk]
        by_cases hseen : k ∈ seen
        · rw [if_pos hseen]
          exact (firstOccur_sublist seen rest).cons m
        · rw [if_neg hseen]
          exact (firstOccur_sublist (k :: seen) rest).cons₂ m
      | none =>
        simp only [hk]
        exact List.nil_sublist _

/-- The reference recursion keeps messages with computable, pairwise
distinct, fresh keys. -/
theorem firstOccur_keys : ∀ (seen : List String) (conv : List Msg),
    ∃ ks, (firstOccur seen conv).mapM msgKeyT = some ks
      ∧ ks.Nodup ∧ ∀ k ∈ ks, k ∉ seen
  | _, [] => ⟨[], rfl, List.nodup_nil, by intro k hk; cases hk⟩
  | seen, m :: rest => by
    simp only [firstOccur]
    by_cases hemp : pyStrip m.content = ""
    · rw [if_pos hemp]
      exact firstOccur_keys seen rest
    · rw [if_neg hemp]
      cases hk : msgKeyT m with
      | some k =>
        simp only [hk]
        by_cases hseen : k ∈ seen
        · rw [if_pos hseen]
          exact firstOccur_keys seen rest
        · rw [if_neg hseen]
          obtain ⟨ks, hks, hnd, hfresh⟩ := firstOccur_keys (k :: seen) rest
          refine ⟨k :: ks, ?_, ?_, ?_⟩
          · rw [List.mapM_cons, hk, hks]
            rfl
          · exact List.Nodup.cons
              (fun hmem => (hfresh k hmem) (by simp)) hnd
          · intro k' hk'
            rcases List.mem_cons.mp hk' with hk' | hk'
            · exact hk' ▸ hseen
            · intro hk'seen
              exact hfresh k' hk' (by simp [hk'seen])
      | none =>
        simp only [hk]
        exact ⟨[], rfl, List.nodup_nil, by intro k hk; cases hk⟩

/-- Every non-empty message of the input shares its key with a seen key
or with a kept message, provided all keys are computable. -/
theorem firstOccur_covers : ∀ (seen : List String) (conv : List Msg),
    (∀ m ∈ conv, pyStrip m.content ≠ "" → (msgKeyT m).isSome) →
    ∀ m ∈ conv, pyStrip m.content ≠ "" →
      ∃ k, msgKeyT m = some k
        ∧ (k ∈ seen ∨ ∃ m' ∈ firstOccur seen conv, msgKeyT m' = some k)
  | _, [], _, m, hm, _ => by cases hm
  | seen, m0 :: rest, hok, m, hm, hne => by
    simp only [firstOccur]
    by_cases hemp : pyStrip m0.content = ""
    · rw [if_pos hemp]
      rcases List.mem_cons.mp hm with hm | hm
      · exact absurd (hm ▸ hne) (by simp [hemp])
      · exact firstOccur_covers seen rest
          (fun x hx => hok x (by simp [hx])) m hm hne
    · rw [if_neg hemp]
      cases hk0 : msgKeyT m0 with
      | some k0 =>
        simp only [hk0]
        by_cases hseen : k0 ∈ seen
        · rw [if_pos hseen]
          rcases List.mem_cons.mp hm with hm | hm
          · exact ⟨k0, hm ▸ hk0, .inl hseen⟩
          · exact firstOccur_covers seen rest
              (fun x hx => hok x (by simp [hx])) m hm hne
        · rw [if_neg hseen]
          rcases List.mem_cons.mp hm with hm | hm
          · exact ⟨k0, hm ▸ hk0, .inr ⟨m0, by simp, hk0⟩⟩
          · obtain ⟨k, hk, hloc⟩ := firstOccur_covers (k0 :: seen) rest
              (fun x hx => hok x (by simp [hx])) m hm hne
            rcases hloc with hin | ⟨m', hm', hk'⟩
            · rcases List.mem_cons.mp hin with hin | hin
              · exact ⟨k, hk, .inr ⟨m0, by simp, hin ▸ hk0⟩⟩
              · exact ⟨k, hk, .inl hin⟩
            · exact ⟨k, hk, .inr ⟨m', by simp [hm'], hk'⟩⟩
      | none =>
        exact absurd (hok m0 (by simp) hemp) (by simp [hk0])

/-- A successful deduplication run computed a key for every non-empty
message it scanned. -/
theorem dedup_fold_keys_ok :
    ∀ (conv : List Msg) (st : List String × List Msg)
      (out : List String × List Msg),
      conv.foldlM dedupStep st = .ok out →
      ∀ m ∈ conv, pyStrip m.content ≠ "" → (msgKeyT m).isSome
  | [], _, _, _, m, hm, _ => by cases hm
  | m0 :: rest, st, out, h, m, hm, hne => by
    simp only [List.foldlM_cons] at h
    cases hstep : dedupStep st m0 with
    | error e => rw [hstep, except_error_bind] at h; cases h
    | ok st1 =>
      rw [hstep, except_ok_bind] at h
      rcases List.mem_cons.mp hm with hm | hm
      · subst hm
        simp [dedupStep, hne] at hstep
        cases hk : msg_key m with
        | error e => simp [hk, except_error_bind] at hstep
        | ok k => simp [msgKeyT, hk, Except.toOption]
      · exact dedup_fold_keys_ok rest st1 out h m hm hne

/-- Claim C1, amended — the Conversation Builder itself performs no
deduplication (see the counterexample); the deduplication by the key
`(role lowercased, first 50 chars, last 50 chars when longer than 100,
timestamp truncated to 19 chars)` happens in
`display_conversations_browser`: its `unique_messages` list has pairwise
distinct keys, is a subsequence of the conversation, covers the key of
every non-empty message, and equals the keep-first-occurrence reference
recursion. -/
theorem c1_display_dedup_unique (conv uniq : List Msg)
    (h : display_dedup_messages conv = .ok uniq) :
    (∃ ks, uniq.mapM msgKeyT = some ks ∧ ks.Nodup)
    ∧ uniq.Sublist conv
    ∧ (∀ m ∈ conv, pyStrip m.content ≠ "" →
        ∃ m' ∈ uniq, msgKeyT m' = msgKeyT m)
    ∧ uniq = firstOccur [] conv := by
  simp only [display_dedup_messages] at h
  cases hfold : conv.foldlM dedupStep ([], []) with
  | error e => rw [hfold] at h; cases h
  | ok out =>
    rw [hfold] at h
    simp only [Except.map] at h
    cases h
    have heq := dedup_fold_eq_firstOccur conv [] [] out hfold
    simp only [List.nil_append] at heq
    refine ⟨?_, ?_, ?_, heq⟩
    · obtain ⟨ks, hks, hnd, _⟩ := firstOccur_keys [] conv
      exact ⟨ks, heq ▸ hks, hnd⟩
    · exact heq ▸ firstOccur_sublist [] conv
    · intro m hm hne
      obtain ⟨k, hk, hloc⟩ := firstOccur_covers [] conv
        (dedup_fold_keys_ok conv ([], []) out hfold) m hm hne
      rcases hloc with hin | ⟨m', hm', hk'⟩
      · cases hin
      · exact ⟨m', heq ▸ hm', hk'.trans hk.symm⟩

/-- Claim C1, counterexample — `extract_conversation_from_history`
keeps two messages sharing the deduplication key: a first history item
whose `messages` list repeats an identical candidate yields the message
twice. -/
theorem c1_builder_keeps_duplicates :
    extract_conversation_from_history
      [.dict [("values", .dict [("messages",
          .list [.dict [("type", .str "human"), ("content", .str "hi")],
            .dict [("type", .str "human"), ("content", .str "hi")]])]),
        ("created_at", .str "2024-01-01T00:00:00")]]
      = .ok [⟨.str "2024-01-01T00:00:00", "User", "hi"⟩,
          ⟨.str "2024-01-01T00:00:00", "User", "hi"⟩]
    ∧ msgKeyT ⟨.str "2024-01-01T00:00:00", "User", "hi"⟩
      = some "user|hi||2024-01-01T00:00:00" := by
  refine ⟨by decide, by decide⟩

/-- Witness for C1 at a conversation with a repeated message. -/
theorem c1_display_dedup_unique_witness :
    (∃ ks, ([⟨.str "t1", "User", "hi"⟩, (⟨.str "t2", "AI", "yo"⟩ : Msg)].mapM msgKeyT
        = some ks) ∧ ks.Nodup)
    ∧ List.Sublist [⟨.str "t1", "User", "hi"⟩, (⟨.str "t2", "AI", "yo"⟩ : Msg)]
        [⟨.str "t1", "User", "hi"⟩, ⟨.str "t1", "User", "hi"⟩,
          (⟨.str "t2", "AI", "yo"⟩ : Msg)]
    ∧ (∀ m ∈ [⟨.str "t1", "User", "hi"⟩, ⟨.str "t1", "User", "hi"⟩,
          (⟨.str "t2", "AI", "yo"⟩ : Msg)], pyStrip m.content ≠ "" →
        ∃ m' ∈ [⟨.str "t1", "User", "hi"⟩, (⟨.str "t2", "AI", "yo"⟩ : Msg)],
          msgKeyT m' = msgKeyT m)
    ∧ [⟨.str "t1", "User", "hi"⟩, (⟨.str "t2", "AI", "yo"⟩ : Msg)] =
        firstOccur [] [⟨.str "t1", "User", "hi"⟩, ⟨.str "t1", "User", "hi"⟩,
          (⟨.str "t2", "AI", "yo"⟩ : Msg)] :=
  c1_display_dedup_unique
    [⟨.str "t1", "User", "hi"⟩, ⟨.str "t1", "User", "hi"⟩, ⟨.str "t2", "AI", "yo"⟩]
    [⟨.str "t1", "User", "hi"⟩, ⟨.str "t2", "AI", "yo"⟩]
    (by decide)

/-- Loop specification for `fetchAllLoop`: starting at page index `m`,
if the next `n` raw pages are non-empty and the `(m+n)`-th is empty, the
loop returns the accumulator extended by the concatenation of the
filtered pages, in fetch order. -/
theorem fetchAllLoop_spec (fetchPage : Nat → List PyVal)
    (pIso pYmd : String → Option Nat) (df dt : Option String) :
    ∀ (n fuel m : Nat) (acc : List PyVal),
      (∀ k, k < n → fetchPage (1000 * (m + k)) ≠ []) →
      fetchPage (1000 * (m + n)) = [] →
      n < fuel →
      fetchAllLoop fetchPage pIso pYmd df dt fuel (1000 * m) acc =
        ((List.range' m n).mapM
          (fun k => appliedPageFilter pIso pYmd df dt (fetchPage (1000 * k)))).map
          (fun ls => acc ++ ls.flatten)
  | 0, fuel, m, acc, _, h2, h3 => by
    cases fuel with
    | zero => omega
    | succ f =>
      simp only [Nat.add_zero] at h2
      have hstop : fetchAllLoop fetchPage pIso pYmd df dt (f + 1) (1000 * m) acc
          = .ok acc := by
        simp [fetchAllLoop, h2]
      have hrhs : ((List.range' m 0).mapM
          (fun k => appliedPageFilter pIso pYmd df dt (fetchPage (1000 * k))))
            = Except.ok ([] : List (List PyVal)) := rfl
      rw [hstop, hrhs]
      simp [Except.map]
  | n + 1, fuel, m, acc, h1, h2, h3 => by
    cases fuel with
    | zero => omega
    | succ f =>
      have hne : fetchPage (1000 * m) ≠ [] := by
        have := h1 0 (by omega)
        simpa using this
      simp only [fetchAllLoop]
      rw [if_neg (by simpa [List.isEmpty_iff] using hne)]
      have hrange : List.range' m (n + 1) = m :: List.range' (m + 1) n := rfl
      rw [hrange, List.mapM_cons]
      cases hfilt : appliedPageFilter pIso pYmd df dt (fetchPage (1000 * m)) with
      | error e =>
        rw [except_error_bind]
        simp [Except.map, except_error_bind]
      | ok l0 =>
        rw [except_ok_bind]
        have harith : 1000 * m + 1000 = 1000 * (m + 1) := by ring
        rw [harith]
        have hh1 : ∀ k, k < n → fetchPage (1000 * ((m + 1) + k)) ≠ [] := by
          intro k hk
          have := h1 (k + 1) (by omega)
          have harg : m + (k + 1) = (m + 1) + k := by omega
          rwa [harg] at this
        have hh2 : fetchPage (1000 * ((m + 1) + n)) = [] := by
          have harg : m + (n + 1) = (m + 1) + n := by omega
          rwa [harg] at h2
        have ih := fetchAllLoop_spec fetchPage pIso pYmd df dt n f (m + 1)
          (acc ++ l0) hh1 hh2 (by omega)
        rw [ih]
        cases hrest : (List.range' (m + 1) n).mapM
            (fun k => appliedPageFilter pIso pYmd df dt (fetchPage (1000 * k))) with
        | error e => simp [Except.map, hrest, except_error_bind, except_ok_bind]
        | ok ls =>
          simp [Except.map, hrest, except_ok_bind, except_error_bind, pure, Except.pure]

/-- Claim C9 — pagination of `fetch_all_threads` stops exactly when a
raw page is empty, tested before the date filter: with `n` non-empty raw
pages followed by an empty one, the result is the concatenation, in
fetch order, of each page after filtering — in particular a non-empty
page whose records are all filtered out contributes nothing but does not
end pagination. -/
theorem c9_pagination (fetchPage : Nat → List PyVal)
    (pIso pYmd : String → Option Nat) (df dt : Option String) (n fuel : Nat)
    (h1 : ∀ k, k < n → fetchPage (1000 * k) ≠ [])
    (h2 : fetchPage (1000 * n) = [])
    (h3 : n < fuel) :
    fetch_all_threads fetchPage pIso pYmd df dt fuel =
      ((List.range n).mapM
        (fun k => appliedPageFilter pIso pYmd df dt (fetchPage (1000 * k)))).map
        List.flatten := by
  have h := fetchAllLoop_spec fetchPage pIso pYmd df dt n fuel 0 []
    (by simpa using h1) (by simpa using h2) h3
  simp only [Nat.mul_zero] at h
  rw [fetch_all_threads, h, List.range_eq_range']
  cases hrest : (List.range' 0 n).mapM
      (fun k => appliedPageFilter pIso pYmd df dt (fetchPage (1000 * k))) with
  | error e => simp [Except.map]
  | ok ls => simp [Except.map]

/-- Witness for C9: two non-empty raw pages, the first entirely removed
by the date window, then an empty page; pagination continues past the
fully filtered page and returns the surviving record. -/
theorem c9_pagination_witness :
    fetch_all_threads
      (fun off => if off = 0 then [.dict [("updated_at", .str "early")]]
        else if off = 1000 then [.dict [("updated_at", .str "late")]] else [])
      (fun s => if s = "early" then some 1 else if s = "late" then some 5 else Option.none)
      (fun s => if s = "2024-01-02" then some 3 else Option.none)
      (some "2024-01-02") Option.none 5 =
      ((List.range 2).mapM
        (fun k => appliedPageFilter
          (fun s => if s = "early" then some 1 else if s = "late" then some 5 else Option.none)
          (fun s => if s = "2024-01-02" then some 3 else Option.none)
          (some "2024-01-02") Option.none
          ((fun off => if off = 0 then [.dict [("updated_at", .str "early")]]
            else if off = 1000 then [.dict [("updated_at", .str "late")]] else [])
            (1000 * k)))).map List.flatten
    ∧ fetch_all_threads
      (fun off => if off = 0 then [.dict [("updated_at", .str "early")]]
        else if off = 1000 then [.dict [("updated_at", .str "late")]] else [])
      (fun s => if s = "early" then some 1 else if s = "late" then some 5 else Option.none)
      (fun s => if s = "2024-01-02" then some 3 else Option.none)
      (some "2024-01-02") Option.none 5 = .ok [.dict [("updated_at", .str "late")]] :=
  ⟨c9_pagination _ _ _ _ _ 2 5 (by decide) (by decide) (by decide), by decide⟩

/-- Total number of thread ids stored across all user groups. -/
def groupSizes (l : List (PyVal × List PyVal)) : Nat :=
  (l.map (fun p => p.2.length)).sum

/-- Updating entries whose key differs from `k` everywhere is the
identity. -/
theorem map_update_id (l : List (PyVal × List PyVal)) (k : PyVal) (v : PyVal)
    (h : ∀ p ∈ l, p.1 ≠ k) :
    l.map (fun p => if p.1 = k then (p.1, p.2 ++ [v]) else p) = l := by
  induction l with
  | nil => rfl
  | cons p rest ih =>
    simp only [List.map_cons]
    rw [if_neg (h p (by simp)), ih (fun q hq => h q (by simp [hq]))]

/-- `appendGroup` grows the total number of stored ids by exactly one
when the group keys are pairwise distinct. -/
theorem appendGroup_groupSizes (l : List (PyVal × List PyVal)) (k v : PyVal)
    (hnd : (l.map Prod.fst).Nodup) :
    groupSizes (appendGroup l k v) = groupSizes l + 1 := by
  unfold appendGroup
  by_cases hmem : l.any (fun p => p.1 = k) = true
  · rw [if_pos hmem]
    induction l with
    | nil => cases hmem
    | cons p rest ih =>
      simp only [List.map_cons, List.nodup_cons] at hnd
      by_cases hp : p.1 = k
      · have hrest : rest.map (fun q => if q.1 = k then (q.1, q.2 ++ [v]) else q) = rest := by
          refine map_update_id rest k v (fun q hq hqk => ?_)
          exact hnd.1 (by
            rw [← hp] at hqk
            exact hqk ▸ List.mem_map_of_mem Prod.fst hq)
        simp [groupSizes, hp, hrest]
        omega
      · have hmem' : rest.any (fun q => q.1 = k) = true := by
          rcases List.any_eq_true.mp hmem with ⟨q, hq, hqk⟩
          rcases List.mem_cons.mp hq with hq | hq
          · exact absurd (by simpa [hq] using hqk) hp
          · exact List.any_eq_true.mpr ⟨q, hq, hqk⟩
        have := ih hnd.2 hmem'
        simp only [List.map_cons, if_neg hp]
        simp only [groupSizes, List.map_cons, List.sum_cons] at this ⊢
        omega
  · rw [if_neg hmem]
    simp [groupSizes]

/-- `appendGroup` keeps the group keys pairwise distinct. -/
theorem appendGroup_nodup (l : List (PyVal × List PyVal)) (k v : PyVal)
    (hnd : (l.map Prod.fst).Nodup) :
    ((appendGroup l k v).map Prod.fst).Nodup := by
  unfold appendGroup
  by_cases hmem : l.any (fun p => p.1 = k) = true
  · rw [if_pos hmem]
    have : (l.map (fun p => if p.1 = k then (p.1, p.2 ++ [v]) else p)).map Prod.fst
        = l.map Prod.fst := by
      rw [List.map_map]
      refine List.map_congr_left (fun p _ => ?_)
      by_cases hp : p.1 = k <;> simp [hp]
    rw [this]
    exact hnd
  · rw [if_neg hmem]
    simp only [List.map_append, List.map_cons, List.map_nil]
    rw [List.nodup_append]
    refine ⟨hnd, List.nodup_singleton k, ?_⟩
    intro a ha hb
    simp only [List.mem_singleton] at hb
    rcases List.mem_map.mp ha with ⟨p, hp, hpk⟩
    have hall : ∀ x : List PyVal, (k, x) ∉ l := by simpa using hmem
    apply hall p.2
    have hpeq : p = (k, p.2) := by
      have : p.1 = k := by rw [hpk, hb]
      cases p
      simp_all
    rwa [hpeq] at hp

/-- Under `threadWF`, a successful `usersStep` grows the user groups by
exactly the new thread id (the later profile/conversation updates do not
touch `user_threads`). -/
theorem usersStep_user_threads (fetchHistory : PyVal → List PyVal)
    (st st' : UsersState) (thread : PyVal) (hwf : threadWF thread = true)
    (h : usersStep fetchHistory st thread = .ok st') :
    ∃ uid tid, st'.user_threads = appendGroup st.user_threads uid tid := by
  cases thread with
  | dict tkvs =>
    cases hmd : PyVal.lookupD tkvs "metadata" (.dict []) with
    | dict mkvs =>
      simp only [threadWF, hmd, Bool.and_eq_true] at hwf
      simp only [usersStep, PyVal.getE, hmd, except_ok_bind] at h
      rw [if_neg (by simp [hwf.1, hwf.2])] at h
      refine ⟨PyVal.lookupD mkvs "user_id" PyVal.none,
        PyVal.lookupD tkvs "thread_id" PyVal.none, ?_⟩
      by_cases hud : (st.user_details.any
          (fun p => p.1 = PyVal.lookupD mkvs "user_id" PyVal.none)) = true
      · rw [if_pos hud] at h
        cases hcd : _get_thread_conversation_data fetchHistory (.dict tkvs)
            (PyVal.lookupD tkvs "thread_id" PyVal.none) with
        | error e => rw [hcd, except_error_bind] at h; cases h
        | ok cd =>
          rw [hcd, except_ok_bind] at h
          cases h
          rfl
      · rw [if_neg hud] at h
        cases hum : get_user_metadata fetchHistory
            (PyVal.lookupD tkvs "thread_id" PyVal.none) with
        | error e =>
          rw [hum, except_error_bind] at h
          cases h
        | ok um =>
          rw [hum, except_ok_bind] at h
          cases hcd : _get_thread_conversation_data fetchHistory (.dict tkvs)
              (PyVal.lookupD tkvs "thread_id" PyVal.none) with
          | error e => rw [hcd, except_error_bind] at h; cases h
          | ok cd =>
            rw [hcd, except_ok_bind] at h
            cases h
            rfl
    | none => simp only [threadWF, hmd] at hwf; cases hwf
    | str s => simp only [threadWF, hmd] at hwf; cases hwf
    | int n => simp only [threadWF, hmd] at hwf; cases hwf
    | list xs => simp only [threadWF, hmd] at hwf; cases hwf
  | none => cases hwf
  | str s => cases hwf
  | int n => cases hwf
  | list xs => cases hwf

/-- Folding well-formed threads through the user pass adds exactly one
stored thread id per thread and keeps the group keys distinct. -/
theorem usersFold_groupSizes (fetchHistory : PyVal → List PyVal) :
    ∀ (threads : List PyVal) (st st' : UsersState),
      (∀ t ∈ threads, threadWF t = true) →
      threads.foldlM (usersStep fetchHistory) st = .ok st' →
      (st.user_threads.map Prod.fst).Nodup →
      groupSizes st'.user_threads = groupSizes st.user_threads + threads.length
        ∧ (st'.user_threads.map Prod.fst).Nodup
  | [], st, st', _, h, hnd => by
    simp only [List.foldlM_nil] at h
    cases h
    exact ⟨rfl, hnd⟩
  | t :: rest, st, st', hwf, h, hnd => by
    simp only [List.foldlM_cons] at h
    cases hstep : usersStep fetchHistory st t with
    | error e => rw [hstep, except_error_bind] at h; cases h
    | ok st1 =>
      rw [hstep, except_ok_bind] at h
      obtain ⟨uid, tid, heq⟩ :=
        usersStep_user_threads fetchHistory st st1 t (hwf t (by simp)) hstep
      have hsz := appendGroup_groupSizes st.user_threads uid tid hnd
      have hnd1 := appendGroup_nodup st.user_threads uid tid hnd
      obtain ⟨ih1, ih2⟩ := usersFold_groupSizes fetchHistory rest st1 st'
        (fun x hx => hwf x (by simp [hx])) h (heq ▸ hnd1)
      refine ⟨?_, ih2⟩
      rw [ih1, heq, hsz]
      simp only [List.length_cons]
      omega

/-- The fold of `_build_user_statistics` accumulates one
`threads_per_user` entry per group, whose `thread_count` is the group
size. -/
theorem build_fold_sum (ud : List (PyVal × PyVal)) (tc : List (PyVal × ConvData)) :
    ∀ (ut : List (PyVal × List PyVal)) (us0 : UserStats),
      (((ut.foldl (_build_user_step ud tc) us0).threads_per_user.map
          (fun p => p.2.thread_count)).sum)
        = ((us0.threads_per_user.map (fun p => p.2.thread_count)).sum) + groupSizes ut
  | [], us0 => by simp [groupSizes]
  | p :: rest, us0 => by
    rw [List.foldl_cons, build_fold_sum ud tc rest]
    simp only [_build_user_step, List.map_append, List.sum_append, groupSizes,
      List.map_cons, List.sum_cons, List.map_nil, List.sum_nil]
    omega

/-- The sum of per-user `thread_count`s in the built statistics equals
the total number of stored thread ids. -/
theorem build_sum (ut : List (PyVal × List PyVal)) (ud : List (PyVal × PyVal))
    (tc : List (PyVal × ConvData)) (tu : List PyVal) :
    (((_build_user_statistics ut ud tc tu).threads_per_user.map
        (fun p => p.2.thread_count)).sum) = groupSizes ut := by
  unfold _build_user_statistics
  rw [build_fold_sum]
  simp

/-- Claim C8, amended — whenever every ThreadRecord is a mapping whose
metadata mapping carries a truthy `user_id` AND the record carries a
truthy `thread_id`, the report produced by `generate_report` satisfies
`sum(threads_per_user[u].thread_count) = summary.total_threads`. -/
theorem c8_thread_count_sum (fetchHistory : PyVal → List PyVal)
    (parseDateStr : String → Option String) (threads : List PyVal) (b : Bool)
    (r : Report)
    (hwf : ∀ t ∈ threads, threadWF t = true)
    (h : generate_report fetchHistory parseDateStr threads b = .ok r) :
    (r.user_stats.threads_per_user.map (fun p => p.2.thread_count)).sum
      = r.summary_total_threads := by
  simp only [generate_report] at h
  cases htbd : analyze_threads_by_date parseDateStr threads with
  | error e => rw [htbd, except_error_bind] at h; cases h
  | ok tbd =>
    rw [htbd, except_ok_bind] at h
    cases hfold : threads.foldlM (usersStep fetchHistory) ⟨[], [], [], []⟩ with
    | error e =>
      rw [show analyze_users_comprehensive fetchHistory threads = .error e from by
        simp [analyze_users_comprehensive, hfold, except_error_bind],
        except_error_bind] at h
      cases h
    | ok stF =>
      have hus : analyze_users_comprehensive fetchHistory threads =
          .ok (_build_user_statistics stF.user_threads stF.user_details
            stF.thread_conversations stF.total_users) := by
        simp [analyze_users_comprehensive, hfold, except_ok_bind]
      rw [hus, except_ok_bind] at h
      have hsum : ((_build_user_statistics stF.user_threads stF.user_details
          stF.thread_conversations stF.total_users).threads_per_user.map
            (fun p => p.2.thread_count)).sum = threads.length := by
        rw [build_sum]
        have := usersFold_groupSizes fetchHistory threads ⟨[], [], [], []⟩ stF
          hwf hfold (by simp)
        simpa [groupSizes] using this.1
      cases b with
      | false =>
        simp only [Bool.false_eq_true, if_false, except_ok_bind] at h
        cases h
        exact hsum
      | true =>
        simp only [if_true, except_ok_bind] at h
        cases hts : analyze_tool_calling_for_all_threads fetchHistory parseDateStr
            threads with
        | error e =>
          rw [hts] at h
          simp only [Except.map, except_error_bind] at h
          cases h
        | ok ts =>
          rw [hts] at h
          simp only [Except.map, except_ok_bind] at h
          cases h
          exact hsum

/-- The concrete report produced by `generate_report` on one well-formed
thread record with empty history (used by the C8 witness). -/
def c8WitnessReport : Report :=
  { summary_total_threads := 1
    summary_total_users := 1
    summary_total_messages := 0
    summary_user_messages := 0
    summary_ai_messages := 0
    summary_peak_day := ""
    summary_peak_threads := 0
    threads_by_date := []
    user_stats :=
      { total_users := 1
        threads_per_user := [(PyVal.str "u",
          { thread_count := 1
            thread_ids := [PyVal.str "th"]
            user_info := PyVal.dict [("username", PyVal.str ""), ("email", PyVal.str ""),
              ("name", PyVal.str ""), ("phoneNumber", PyVal.str ""),
              ("userId", PyVal.str "u")]
            total_messages := 0
            total_user_messages := 0 })]
        user_thread_count := [(1, 1)]
        user_details := [(PyVal.str "u",
          PyVal.dict [("username", PyVal.str ""), ("email", PyVal.str ""),
            ("name", PyVal.str ""), ("phoneNumber", PyVal.str ""),
            ("userId", PyVal.str "u")])]
        thread_conversations := [(PyVal.str "th",
          { total_messages := 0
            user_messages := 0
            ai_messages := 0
            first_message := "No conversation found"
            last_message := "No conversation found"
            created_at := PyVal.str ""
            updated_at := PyVal.str ""
            user_id := PyVal.str "u"
            conversation := [] })] }
    top_users := [{ user_id := PyVal.str "u"
                    thread_count := 1
                    thread_ids := [PyVal.str "th"]
                    user_info := PyVal.dict [("username", PyVal.str ""),
                      ("email", PyVal.str ""), ("name", PyVal.str ""),
                      ("phoneNumber", PyVal.str ""), ("userId", PyVal.str "u")] }]
    tool_calling_stats := some
      { create_lead := 0
        send_html_email := 0
        total_tool_calls := 0
        threads_with_create_lead := 0
        threads_with_send_html_email := 0
        threads_with_any_tool := 0
        tool_calls_by_thread := [(PyVal.str "th",
          { thread_metadata := PyVal.dict [("user_id", PyVal.str "u")]
            created_at := PyVal.str ""
            updated_at := PyVal.str ""
            tool_stats := { create_lead := 0
                            send_html_email := 0
                            total_tool_calls := 0
                            tool_calls_detail := [] } })]
        tool_calls_by_date := []
        detailed_calls := [] } }

/-- Claim C8, counterexample — a record with a non-empty `user_id` but
no `thread_id` is skipped by the user pass, so the per-user thread
counts sum to 0 while `summary.total_threads` is 1. -/
theorem c8_missing_thread_id :
    (generate_report (fun _ => []) (fun _ => Option.none)
        [.dict [("metadata", .dict [("user_id", .str "u1")])]] true).map
      (fun r => ((r.user_stats.threads_per_user.map (fun p => p.2.thread_count)).sum,
        r.summary_total_threads))
      = .ok (0, 1)
    ∧ (PyVal.lookupD [("user_id", PyVal.str "u1")] "user_id" PyVal.none).truthy = true := by
  refine ⟨by decide, by decide⟩

/-- Witness for C8 at one well-formed record. -/
theorem c8_thread_count_sum_witness :
    (c8WitnessReport.user_stats.threads_per_user.map
      (fun p => p.2.thread_count)).sum = c8WitnessReport.summary_total_threads :=
  c8_thread_count_sum (fun _ => []) (fun _ => Option.none)
    [.dict [("metadata", .dict [("user_id", .str "u")]), ("thread_id", .str "th")]]
    true c8WitnessReport (by decide) (by decide)
